import Mathlib

/-!
Verification development for the baropodometry-web analysis pipeline.

We shallowly embed the server-side TypeScript code of the repository:

* `src/app/api/analyze/route.ts` — the extraction-response parser
  (fence markers / `"patient"`-regex fallback / first-brace split),
  `cleanExtractedJson`, `normalizeExtraction`, `pdfToImages`, and the
  response construction of the `POST /api/analyze` handler;
* `src/app/api/bootstrap-key/route.ts` — the `POST /api/bootstrap-key`
  handler and the `GET` config endpoint;
* the configuration resolver `getDefaultSettings` (layered
  environment → local JSON file → hardcoded default resolution).

Strings are modelled as `List Char` (`Str`), JavaScript/JSON values as the
inductive type `JVal`, and the runtime's `JSON.parse` / `JSON.stringify`
as executable Lean functions.  All definitions are total and executable;
the handlers' effectful parts (file system, external model calls, PDF
rendering) are passed in explicitly as state / oracle arguments.
-/

/-- Strings are lists of characters, so that the usual list lemmas apply. -/
abbrev Str := List Char

/-- Shorthand turning a Lean string literal into a `Str`. -/
def sl (s : String) : Str := s.data

/-- JavaScript whitespace (the `\s` regex class and `String.prototype.trim`):
space, tab, LF, CR, vertical tab, form feed, NBSP, BOM and the Unicode
line/paragraph separators. -/
def isJsWs (c : Char) : Bool :=
  c = ' ' || c = '\t' || c = '\n' || c = '\r' || c = '\x0b' || c = '\x0c' ||
  c.toNat = 0x00a0 || c.toNat = 0xfeff || c.toNat = 0x2028 || c.toNat = 0x2029

/-- JSON whitespace as accepted by `JSON.parse` (ECMA-404): space, tab, LF, CR. -/
def isJsonWs (c : Char) : Bool :=
  c = ' ' || c = '\t' || c = '\n' || c = '\r'

/-- `String.prototype.trim`. -/
def trimStr (s : Str) : Str :=
  ((s.dropWhile isJsWs).reverse.dropWhile isJsWs).reverse

/-- Does `pat` occur in `s` starting at index `i`?  (Substring test used to
model `String.prototype.indexOf` and friends.) -/
def occursAt (pat s : Str) (i : Nat) : Bool :=
  pat.isPrefixOf (s.drop i)

/-- `s.indexOf(pat)`: index of the first occurrence of `pat`, if any. -/
def firstOccIdx (pat s : Str) : Option Nat :=
  (List.range (s.length + 1)).find? (occursAt pat s)

/-- `s.lastIndexOf(pat)`: index of the last occurrence of `pat`, if any. -/
def lastOccIdx (pat s : Str) : Option Nat :=
  (List.range (s.length + 1)).reverse.find? (occursAt pat s)

/-- `s.substring(a, b)` (JavaScript clamps to the string bounds and swaps
the arguments when given in the wrong order). -/
def substringJS (s : Str) (a b : Nat) : Str :=
  (s.take (max a b)).drop (min a b)

/-- `s.slice(-n)`: the last `n` characters (the whole string when shorter). -/
def takeRight (s : Str) (n : Nat) : Str :=
  s.drop (s.length - n)

/-- JSON values (the result type of `JSON.parse`).  Numbers are modelled as
rationals; objects are association lists in insertion order with unique
keys (as produced by the parser below). -/
inductive JVal where
  | jnull : JVal
  | jbool : Bool → JVal
  | jnum : ℚ → JVal
  | jstr : Str → JVal
  | jarr : List JVal → JVal
  | jobj : List (Str × JVal) → JVal

namespace JVal

/-- JavaScript truthiness of a defined value. -/
def truthy : JVal → Bool
  | jnull => false
  | jbool b => b
  | jnum q => decide (q ≠ 0)
  | jstr s => !s.isEmpty
  | jarr _ => true
  | jobj _ => true

end JVal

open JVal

/-- Truthiness of a possibly-undefined value (`undefined` is falsy). -/
def truthyO : Option JVal → Bool
  | none => false
  | some v => v.truthy

/-- JavaScript property read `v[k]`: defined only on objects, `undefined`
(here `none`) otherwise.  Objects have unique keys, so the first match is
the binding. -/
def getM : JVal → Str → Option JVal
  | jobj es, k => (es.find? (fun e => e.1 = k)).map (·.2)
  | _, _ => none

/-- Optional-chained read `v?.[k1]?.[k2]`. -/
def getM2 (v : JVal) (k1 k2 : Str) : Option JVal :=
  (getM v k1).bind (fun w => getM w k2)

/-- Replace the value bound to `k` (first occurrence), or append the binding
when `k` is absent — the semantics of a JavaScript property write. -/
def setEntries : List (Str × JVal) → Str → JVal → List (Str × JVal)
  | [], k, x => [(k, x)]
  | (k', v') :: rest, k, x =>
    if k' = k then (k', x) :: rest else (k', v') :: setEntries rest k x

/-- Property write `v[k] = x` (no effect on non-objects). -/
def setM : JVal → Str → JVal → JVal
  | jobj es, k, x => jobj (setEntries es k x)
  | v, _, _ => v

/-- Apply `f` to the value bound to `k` (no effect when absent). -/
def modEntries (f : JVal → JVal) : List (Str × JVal) → Str → List (Str × JVal)
  | [], _ => []
  | (k', v') :: rest, k =>
    if k' = k then (k', f v') :: rest else (k', v') :: modEntries f rest k

/-- In-place update of the object member `k` through `f` — the functional
mirror of mutating the aliased sub-object obtained by reading `v[k]`. -/
def modM (v : JVal) (k : Str) (f : JVal → JVal) : JVal :=
  match v with
  | jobj es => jobj (modEntries f es k)
  | w => w

/-- Property deletion `delete v[k]`. -/
def delM (v : JVal) (k : Str) : JVal :=
  match v with
  | jobj es => jobj (es.filter (fun e => !(e.1 = k : Bool)))
  | w => w

-- ---------------------------------------------------------------------------
-- JSON.parse
-- ---------------------------------------------------------------------------

/-- Decimal digit test. -/
def isDig (c : Char) : Bool := '0' ≤ c && c ≤ '9'

/-- Numeric value of a decimal digit string. -/
def digitsToNat (ds : Str) : Nat :=
  ds.foldl (fun acc c => acc * 10 + (c.toNat - '0'.toNat)) 0

/-- Value of four hexadecimal digits (for `\uXXXX` escapes). -/
def hexVal (c : Char) : Nat :=
  if isDig c then c.toNat - '0'.toNat
  else if 'a' ≤ c && c ≤ 'f' then c.toNat - 'a'.toNat + 10
  else if 'A' ≤ c && c ≤ 'F' then c.toNat - 'A'.toNat + 10
  else 0

def isHexDig (c : Char) : Bool :=
  isDig c || ('a' ≤ c && c ≤ 'f') || ('A' ≤ c && c ≤ 'F')

/-- Body of a JSON string literal, after the opening quote.  Returns the
decoded characters and the rest of the input after the closing quote. -/
def parseStringBody : Str → Option (Str × Str)
  | [] => none
  | c :: rest =>
    if c = '"' then some ([], rest)
    else if c = '\\' then
      match rest with
      | [] => none
      | e :: rest2 =>
        let dec : Option Char :=
          if e = '"' then some '"'
          else if e = '\\' then some '\\'
          else if e = '/' then some '/'
          else if e = 'b' then some '\x08'
          else if e = 'f' then some '\x0c'
          else if e = 'n' then some '\n'
          else if e = 'r' then some '\r'
          else if e = 't' then some '\t'
          else none
        match dec with
        | some d => (parseStringBody rest2).map (fun r => (d :: r.1, r.2))
        | none =>
          if e = 'u' then
            match rest2 with
            | h1 :: h2 :: h3 :: h4 :: rest3 =>
              if isHexDig h1 && isHexDig h2 && isHexDig h3 && isHexDig h4 then
                let n := ((hexVal h1 * 16 + hexVal h2) * 16 + hexVal h3) * 16 + hexVal h4
                (parseStringBody rest3).map (fun r => (Char.ofNat n :: r.1, r.2))
              else none
            | _ => none
          else none
    else if c.toNat < 0x20 then none
    else (parseStringBody rest).map (fun r => (c :: r.1, r.2))

/-- The exact rational value `sign · digits · 10^(exp − fracLen)` of a JSON
number, assembled with integer arithmetic and one `mkRat` (the generic
rational operations are irreducible and unsuited to evaluation). -/
def ratOfParts (sign : Int) (digits : Nat) (fracLen : Nat) (exp : Int) : ℚ :=
  let e : Int := exp - fracLen
  if 0 ≤ e then ((sign * digits * 10 ^ e.toNat : Int) : ℚ)
  else mkRat (sign * digits) (10 ^ (-e).toNat)

/-- JSON number grammar: `-? int frac? exp?`, parsed exactly into a rational. -/
def parseNumber (s : Str) : Option (ℚ × Str) :=
  let (sign, s1) : (Int × Str) := match s with
    | '-' :: r => (-1, r)
    | _ => (1, s)
  let intDigs := s1.takeWhile isDig
  let s2 := s1.dropWhile isDig
  if intDigs.isEmpty then none
  else if intDigs.length > 1 && intDigs.headI = '0' then none
  else
    let intVal : Nat := digitsToNat intDigs
    let (fracDigs, s3) : (Str × Str) := match s2 with
      | '.' :: r => (r.takeWhile isDig, r.dropWhile isDig)
      | _ => ([], s2)
    match s2 with
    | '.' :: _ =>
      if fracDigs.isEmpty then none
      else parseNumTail sign intVal fracDigs s3
    | _ => parseNumTail sign intVal [] s3
where
  /-- Handle the optional exponent and assemble the rational value. -/
  parseNumTail (sign : Int) (intVal : Nat) (fracDigs : Str) (s3 : Str) :
      Option (ℚ × Str) :=
    let digits : Nat := intVal * 10 ^ fracDigs.length + digitsToNat fracDigs
    match s3 with
    | e :: r =>
      if e = 'e' || e = 'E' then
        let (esign, r1) : (Int × Str) := match r with
          | '+' :: r2 => (1, r2)
          | '-' :: r2 => (-1, r2)
          | _ => (1, r)
        let expDigs := r1.takeWhile isDig
        if expDigs.isEmpty then none
        else
          some (ratOfParts sign digits fracDigs.length (esign * digitsToNat expDigs),
            r1.dropWhile isDig)
      else some (ratOfParts sign digits fracDigs.length 0, s3)
    | [] => some (ratOfParts sign digits fracDigs.length 0, [])

mutual
/-- Fuel-indexed JSON value parser (`JSON.parse` grammar).  The fuel only
bounds nesting; `jsonParse` below supplies enough for any input. -/
def parseVal : Nat → Str → Option (JVal × Str)
  | 0, _ => none
  | fuel + 1, cs =>
    match cs.dropWhile isJsonWs with
    | 'n' :: 'u' :: 'l' :: 'l' :: r => some (jnull, r)
    | 't' :: 'r' :: 'u' :: 'e' :: r => some (jbool true, r)
    | 'f' :: 'a' :: 'l' :: 's' :: 'e' :: r => some (jbool false, r)
    | '"' :: r => (parseStringBody r).map (fun p => (jstr p.1, p.2))
    | '{' :: r =>
      (match r.dropWhile isJsonWs with
       | '}' :: r2 => some (jobj [], r2)
       | r2 => parseMembers fuel r2 [])
    | '[' :: r =>
      (match r.dropWhile isJsonWs with
       | ']' :: r2 => some (jarr [], r2)
       | r2 => parseElems fuel r2 [])
    | cs' => (parseNumber cs').map (fun p => (jnum p.1, p.2))

/-- Members of an object after `{` (at least one member; `acc` holds the
members parsed so far, with the JavaScript last-wins overwrite). -/
def parseMembers : Nat → Str → List (Str × JVal) → Option (JVal × Str)
  | 0, _, _ => none
  | fuel + 1, cs, acc =>
    match cs.dropWhile isJsonWs with
    | '"' :: r =>
      match parseStringBody r with
      | none => none
      | some (key, r1) =>
        match r1.dropWhile isJsonWs with
        | ':' :: r2 =>
          match parseVal fuel r2 with
          | none => none
          | some (v, r3) =>
            let acc' := setEntries acc key v
            match r3.dropWhile isJsonWs with
            | ',' :: r4 => parseMembers fuel r4 acc'
            | '}' :: r4 => some (jobj acc', r4)
            | _ => none
        | _ => none
    | _ => none

/-- Elements of an array after `[` (at least one element). -/
def parseElems : Nat → Str → List JVal → Option (JVal × Str)
  | 0, _, _ => none
  | fuel + 1, cs, acc =>
    match parseVal fuel cs with
    | none => none
    | some (v, r) =>
      match r.dropWhile isJsonWs with
      | ',' :: r2 => parseElems fuel r2 (acc ++ [v])
      | ']' :: r2 => some (jarr (acc ++ [v]), r2)
      | _ => none
end

/-- `JSON.parse`: parse a complete JSON text (the whole input must be
consumed up to trailing whitespace); `none` models the thrown
`SyntaxError`. -/
def jsonParse (s : Str) : Option JVal :=
  match parseVal (s.length + 1) s with
  | some (v, rest) => if (rest.dropWhile isJsonWs).isEmpty then some v else none
  | none => none

/-- `tryParseJSON` from `src/app/api/analyze/route.ts`: `JSON.parse` with
parse failures mapped to `null`. -/
def tryParseJSON (s : Str) : Option JVal := jsonParse s

-- ---------------------------------------------------------------------------
-- JSON.stringify(·, null, 2)
-- ---------------------------------------------------------------------------

/-- The character of a single decimal digit. -/
def digitChar10 : Nat → Char
  | 0 => '0' | 1 => '1' | 2 => '2' | 3 => '3' | 4 => '4'
  | 5 => '5' | 6 => '6' | 7 => '7' | 8 => '8' | 9 => '9'
  | _ => '*'

/-- Fuel-indexed decimal printer (most-significant digit first). -/
def natToStrCore : Nat → Nat → Str
  | 0, _ => []
  | f + 1, n =>
    if n < 10 then [digitChar10 n]
    else natToStrCore f (n / 10) ++ [digitChar10 (n % 10)]

/-- Decimal digits of a natural number. -/
def natToStr (n : Nat) : Str := natToStrCore (n + 1) n

/-- Decimal form of an integer. -/
def intToStr (n : Int) : Str :=
  if n < 0 then '-' :: natToStr n.natAbs else natToStr n.natAbs

/-- Serialization of a number.  Integers are printed exactly; for
non-integral rationals we print an exact decimal expansion when one of at
most 32 digits exists and fall back to a fraction notation otherwise (an
approximation of IEEE-754 shortest-round-trip printing, which is exact on
every integral value the pipeline's checks concern). -/
def numToStr (q : ℚ) : Str :=
  if q.den = 1 then intToStr q.num
  else
    match (List.range 32).find? (fun k => (q * (10 : ℚ) ^ (k + 1)).den = 1) with
    | some k =>
      let scaled : Int := (q * (10 : ℚ) ^ (k + 1)).num
      let sgn : Str := if q < 0 then ['-'] else []
      let digs := natToStr scaled.natAbs
      let digs := if digs.length < k + 2 then
          List.replicate (k + 2 - digs.length) '0' ++ digs else digs
      sgn ++ digs.take (digs.length - (k + 1)) ++ ['.'] ++
        digs.drop (digs.length - (k + 1))
    | none => intToStr q.num ++ ['/'] ++ natToStr q.den

/-- String-literal escaping performed by `JSON.stringify`. -/
def escapeChar (c : Char) : Str :=
  if c = '"' then ['\\', '"']
  else if c = '\\' then ['\\', '\\']
  else if c = '\n' then ['\\', 'n']
  else if c = '\r' then ['\\', 'r']
  else if c = '\t' then ['\\', 't']
  else if c = '\x08' then ['\\', 'b']
  else if c = '\x0c' then ['\\', 'f']
  else if c.toNat < 0x20 then
    let h := Nat.toDigits 16 c.toNat
    ['\\', 'u'] ++ List.replicate (4 - h.length) '0' ++ h
  else [c]

def quoteStr (s : Str) : Str :=
  '"' :: (s.flatMap escapeChar) ++ ['"']

/-- Indentation string at nesting `level` for a 2-space indent. -/
def ind2 (level : Nat) : Str := List.replicate (2 * level) ' '

mutual
/-- `JSON.stringify(v, null, 2)`: pretty printing with a two-space indent. -/
def stringify2At : Nat → JVal → Str
  | _, jnull => sl "null"
  | _, jbool true => sl "true"
  | _, jbool false => sl "false"
  | _, jnum q => numToStr q
  | _, jstr s => quoteStr s
  | level, jarr xs =>
    match xs with
    | [] => ['[', ']']
    | _ =>
      ['[', '\n'] ++ stringifyItems level xs ++ ['\n'] ++ ind2 level ++ [']']
  | level, jobj es =>
    match es with
    | [] => sl "\x7b\x7d"
    | _ =>
      ['\x7b', '\n'] ++ stringifyPairs level es ++ ['\n'] ++ ind2 level ++ ['\x7d']

/-- Array elements, one per line, separated by commas. -/
def stringifyItems : Nat → List JVal → Str
  | _, [] => []
  | level, [x] => ind2 (level + 1) ++ stringify2At (level + 1) x
  | level, x :: y :: rest =>
    ind2 (level + 1) ++ stringify2At (level + 1) x ++ [',', '\n'] ++
      stringifyItems level (y :: rest)

/-- Object members, one per line, separated by commas. -/
def stringifyPairs : Nat → List (Str × JVal) → Str
  | _, [] => []
  | level, [(k, v)] =>
    ind2 (level + 1) ++ quoteStr k ++ [':', ' '] ++ stringify2At (level + 1) v
  | level, (k, v) :: e :: rest =>
    ind2 (level + 1) ++ quoteStr k ++ [':', ' '] ++ stringify2At (level + 1) v ++
      [',', '\n'] ++ stringifyPairs level (e :: rest)
end

/-- `JSON.stringify(v, null, 2)` at top level. -/
def stringify2 (v : JVal) : Str := stringify2At 0 v

-- ---------------------------------------------------------------------------
-- Extraction-response parsing (src/app/api/analyze/route.ts, POST handler)
-- ---------------------------------------------------------------------------

/-- The literal fence marker `<<<JSON_START>>>`. -/
def fenceStart : Str := sl "<<<JSON_START>>>"

/-- The literal fence marker `<<<JSON_END>>>`. -/
def fenceEnd : Str := sl "<<<JSON_END>>>"

/-- The literal pattern `"patient"` (quotes included) from the fallback
regex `/(\x7b[\s\S]*"patient"[\s\S]*\x7d)\s*$/`. -/
def patientPat : Str := '"' :: sl "patient" ++ ['"']

/-- Position of the closing `\x7d` consumed by the greedy tail of the
fallback regex: the last `\x7d` in `s` followed only by whitespace (the
regex's `\x7d\s*$`).  At most one position qualifies. -/
def lastBraceWs (s : Str) : Option Nat :=
  (List.range s.length).reverse.find?
    (fun k => (s.get? k = some '\x7d' : Bool) && (s.drop (k + 1)).all isJsWs)

/-- Can the fallback regex match starting at index `i`, given that its
closing brace is at `k`?  It needs `\x7b` at `i` and an occurrence of
`"patient"` strictly after `i` ending no later than `k`. -/
def patientMatchAt (s : Str) (k i : Nat) : Bool :=
  (s.get? i = some '\x7b' : Bool) &&
    (List.range s.length).any
      (fun j => i < j && occursAt patientPat s j && j + 9 ≤ k)

/-- Semantics of `s.match(/(\x7b[\s\S]*"patient"[\s\S]*\x7d)\s*$/)`: the
start index of the match and the index of its final `\x7d`, or `none` when
the regex does not match.  The engine returns the leftmost viable start;
both `[\s\S]*` are greedy, so the captured group always ends at the last
brace that is followed only by whitespace. -/
def patientTailMatch (s : Str) : Option (Nat × Nat) :=
  match lastBraceWs s with
  | none => none
  | some k =>
    match (List.range s.length).find? (patientMatchAt s k) with
    | some i => some (i, k)
    | none => none

/-- Index of the first `\x7b` character (`s.indexOf('\x7b')`). -/
def firstBraceIdx (s : Str) : Option Nat :=
  (List.range s.length).find? (fun i => (s.get? i = some '\x7b' : Bool))

/-- The extraction-response splitter from the POST handler (route.ts lines
1121–1148): fence markers when present and well-ordered; otherwise the
trailing `"patient"` object regex; otherwise a split at the first `\x7b`.
Returns `(extractionDiagnostics, extractionJsonText)`.  As a total Lean
function it witnesses that this parsing stage never throws. -/
def parseExtractionResponse (s : Str) : Str × Str :=
  match firstOccIdx fenceStart s, lastOccIdx fenceEnd s with
  | some startIdx, some endIdx =>
    if startIdx < endIdx then
      (trimStr (substringJS s 0 startIdx),
       trimStr (substringJS s (startIdx + fenceStart.length) endIdx))
    else parseExtractionFallback s
  | _, _ => parseExtractionFallback s
where
  /-- The no-marker fallbacks (regex, then first-brace split). -/
  parseExtractionFallback (s : Str) : Str × Str :=
    match patientTailMatch s with
    | some (i, k) => (trimStr (substringJS s 0 i), substringJS s i (k + 1))
    | none =>
      match firstBraceIdx s with
      | some n =>
        if 0 < n then (trimStr (substringJS s 0 n), trimStr (s.drop n))
        else ([], s)
      | none => ([], s)

/-- `cleanExtractedJson` (route.ts lines 649–672): re-serialize the candidate
keeping only the `patient`/`tests`/`comparisons` top-level keys, defaulting
each to `\x7b\x7d` when absent or falsy; return the input unchanged when it is
not valid JSON.  (The `reqId` parameter of the source is only used for
logging and is omitted.) -/
def cleanKeep (parsed : JVal) (k : Str) : JVal :=
  match getM parsed k with
  | some v => if v.truthy then v else jobj []
  | none => jobj []

/-- The three entries `{patient: parsed.patient || {}, ...}` kept by
`cleanExtractedJson`. -/
def cleanEntries (parsed : JVal) : List (Str × JVal) :=
  [(sl "patient", cleanKeep parsed (sl "patient")),
   (sl "tests", cleanKeep parsed (sl "tests")),
   (sl "comparisons", cleanKeep parsed (sl "comparisons"))]

def cleanExtractedJson (jsonText : Str) : Str :=
  match jsonParse jsonText with
  | none => jsonText
  | some parsed => stringify2 (jobj (cleanEntries parsed))

-- ---------------------------------------------------------------------------
-- normalizeExtraction (route.ts lines 674–698)
-- ---------------------------------------------------------------------------

/-- Kernel-reducible rational addition; `Rat.add` (behind `+`) is marked
irreducible, which would make the embedded sum check impossible to
evaluate on concrete inputs.  `ratAdd_eq_add` below proves it agrees with
`+`. -/
def ratAdd (a b : ℚ) : ℚ :=
  mkRat (a.num * b.den + b.num * a.den) (a.den * b.den)

/-- The in-place nulling `page1.left_load_pct = null; page1.right_load_pct
= null` performed on an out-of-range stage. -/
def nullifyLoads (p0 : JVal) : JVal :=
  setM (setM p0 (sl "left_load_pct") jnull) (sl "right_load_pct") jnull

/-- The page-1 load-percentage sanity check of `normalizeExtraction`: when
`page1` is truthy and both load percentages are numbers whose sum falls
outside `[98, 102]`, both fields are set to `null` (mutating the aliased
`page1` object, i.e. updating it in place inside the test block). -/
def loadPart (t : JVal) : JVal :=
  match getM t (sl "page1") with
  | some p =>
    if p.truthy then
      match getM p (sl "left_load_pct"), getM p (sl "right_load_pct") with
      | some (jnum a), some (jnum b) =>
        if !(98 ≤ ratAdd a b && ratAdd a b ≤ 102) then
          modM t (sl "page1") nullifyLoads
        else t
      | _, _ => t
    else t
  | none => t

/-- `if (fft.ml_x && !fft.ml) { fft.ml = fft.ml_x; delete fft.ml_x; }`. -/
def mlStep (f : JVal) : JVal :=
  match getM f (sl "ml_x") with
  | some mx =>
    if mx.truthy && !truthyO (getM f (sl "ml")) then
      delM (setM f (sl "ml") mx) (sl "ml_x")
    else f
  | none => f

/-- `if (fft.ap_y && !fft.ap) { fft.ap = fft.ap_y; delete fft.ap_y; }`. -/
def apStep (f : JVal) : JVal :=
  match getM f (sl "ap_y") with
  | some ay =>
    if ay.truthy && !truthyO (getM f (sl "ap")) then
      delM (setM f (sl "ap") ay) (sl "ap_y")
    else f
  | none => f

/-- Both legacy-key renames, in source order. -/
def renameFft (f : JVal) : JVal := apStep (mlStep f)

/-- The FFT legacy-key rename of `normalizeExtraction`: when `t.page4_fft`
is truthy, rename its `ml_x`/`ap_y` members in place. -/
def fftPart (t1 : JVal) : JVal :=
  match getM t1 (sl "page4_fft") with
  | some f =>
    if f.truthy then modM t1 (sl "page4_fft") renameFft else t1
  | none => t1

/-- The per-stage body of `normalizeExtraction`'s loop: null the two page-1
load percentages when both are numbers with an out-of-range sum, then
rename the legacy FFT keys `ml_x`/`ap_y` to `ml`/`ap`. -/
def normStage (t : JVal) : JVal := fftPart (loadPart t)

/-- One iteration of `normalizeExtraction`'s `for (const key of ["A","B","C"])`
loop: skip when `ex?.tests?.[key]` is falsy/undefined, otherwise mutate that
test block in place. -/
def normKey (e : JVal) (k : Str) : JVal :=
  match getM2 e (sl "tests") k with
  | some t => if t.truthy then modM e (sl "tests") (fun tv => modM tv k normStage) else e
  | none => e

/-- `normalizeExtraction` (route.ts lines 674–698).  The source wraps the
loop in `try/catch`, but every operation involved is non-throwing, so the
total function below is its exact behavior. -/
def normalizeExtraction (ex : JVal) : JVal :=
  [sl "A", sl "B", sl "C"].foldl normKey ex

-- ---------------------------------------------------------------------------
-- POST /api/analyze response construction (route.ts lines 1106–1252)
-- ---------------------------------------------------------------------------

/-- Body of the `POST /api/analyze` JSON response: either the catch-all
error object `\x7bok:false, error\x7d` or the success payload (`ok:true`) with
the fields the claims concern. -/
inductive AnalyzeBody where
  | failure (error : Str) : AnalyzeBody
  | success (extractionReportText : Str) (extractionReportJson : Option JVal)
      (augmentedReportText : Str) : AnalyzeBody

/-- An HTTP response of the analyze route: status code plus JSON body. -/
structure AnalyzeResp where
  status : Nat
  body : AnalyzeBody

/-- The tail of the `POST /api/analyze` handler, from the point where the
extraction model call has produced its output text (`extractionText`) and
the augmentation call would produce `augmentedText`.  An empty extraction
text throws `Error("Empty extraction response from model")`, which the
handler's catch turns into HTTP 500 with the error's message; otherwise
the response is HTTP 200 carrying the cleaned candidate text, its parse
(or `null`), and the augmented narrative. -/
def analyzeRespond (extractionText augmentedText : Str) : AnalyzeResp :=
  if extractionText.isEmpty then
    ⟨500, .failure (sl "Empty extraction response from model")⟩
  else
    let parsed := parseExtractionResponse extractionText
    let extractionJsonText := cleanExtractedJson parsed.2
    ⟨200, .success extractionJsonText (tryParseJSON extractionJsonText) augmentedText⟩

-- ---------------------------------------------------------------------------
-- Configuration resolver (getDefaultSettings, layered resolution)
-- ---------------------------------------------------------------------------

/-- The relevant `process.env` variables (each `none` when unset). -/
structure JsEnv where
  OPENAI_API_KEY : Option Str
  MODEL : Option Str
  LANGUAGE : Option Str
  VECTOR_STORE_ID : Option Str

/-- The local `../Config/settings.json` file: `none` models a missing file,
`some raw` its textual content. -/
abbrev ConfigFile := Option Str

/-- `getDefaultApiKey`: the `OPENAI_API_KEY` environment variable (trimmed)
when truthy, else the `LLMConfig.ApiKey` string of the local config file
when its trim is non-empty, else `undefined`.  File-system or JSON errors
are swallowed by the source's `try/catch`, which the `Option` plumbing
reflects. -/
def getDefaultApiKey (env : JsEnv) (file : ConfigFile) : Option Str :=
  match env.OPENAI_API_KEY with
  | some e =>
    if !(trimStr e).isEmpty then some (trimStr e) else getDefaultApiKeyFile file
  | none => getDefaultApiKeyFile file
where
  /-- The config-file fallback branch of `getDefaultApiKey`. -/
  getDefaultApiKeyFile (file : ConfigFile) : Option Str :=
    match file with
    | none => none
    | some raw =>
      match jsonParse raw with
      | none => none
      | some json =>
        match getM2 json (sl "LLMConfig") (sl "ApiKey") with
        | some (jstr key) => if !(trimStr key).isEmpty then some (trimStr key) else none
        | _ => none

/-- The four fields `readLocalConfig` extracts from the parsed config file. -/
structure LocalConfig where
  apiKey : Option JVal
  model : Option JVal
  language : Option JVal
  vectorStoreId : Option JVal

/-- `readLocalConfig`: read `../Config/settings.json` and project out the
`LLMConfig.ApiKey`, `LLMConfig.Model`, `Language` and `VectorStoreId`
members; any failure yields the empty record. -/
def readLocalConfig (file : ConfigFile) : LocalConfig :=
  match file with
  | none => ⟨none, none, none, none⟩
  | some raw =>
    match jsonParse raw with
    | none => ⟨none, none, none, none⟩
    | some json =>
      ⟨getM2 json (sl "LLMConfig") (sl "ApiKey"),
       getM2 json (sl "LLMConfig") (sl "Model"),
       getM json (sl "Language"),
       getM json (sl "VectorStoreId")⟩

/-- JavaScript `a || b` on a possibly-undefined left operand. -/
def jsOrD (a : Option JVal) (d : JVal) : JVal :=
  match a with
  | some v => if v.truthy then v else d
  | none => d

/-- The resolved settings object (the `model`/`language`/`vectorStoreId`
fields keep the raw JSON value found in the file, as the source does). -/
structure Settings where
  apiKey : Option Str
  model : JVal
  language : JVal
  vectorStoreId : JVal

/-- `getDefaultSettings` (configuration resolver): each field falls through
environment variable → local JSON config file → hardcoded default, with
JavaScript truthiness deciding whether a layer is "set".  `MODEL` and
`LANGUAGE` are trimmed before the test; `VECTOR_STORE_ID` is used raw. -/
def getDefaultSettings (env : JsEnv) (file : ConfigFile) : Settings :=
  let local_ := readLocalConfig file
  { apiKey := getDefaultApiKey env file
    model := jsOrD (env.MODEL.map (fun s => jstr (trimStr s)))
      (jsOrD local_.model (jstr (sl "gpt-5")))
    language := jsOrD (env.LANGUAGE.map (fun s => jstr (trimStr s)))
      (jsOrD local_.language (jstr (sl "English")))
    vectorStoreId := jsOrD (env.VECTOR_STORE_ID.map jstr)
      (jsOrD local_.vectorStoreId (jstr (sl "vs_688ced7042548191997d956b277fd0e0"))) }

-- ---------------------------------------------------------------------------
-- GET /api/config
-- ---------------------------------------------------------------------------

/-- The exact field set of the `GET /api/config` response body: `ok`,
`model`, `language`, `vectorStoreId` and the boolean `hasApiKey` — the
API key's value itself has no field. -/
structure ConfigResp where
  ok : Bool
  model : JVal
  language : JVal
  vectorStoreId : JVal
  hasApiKey : Bool

/-- The `GET` handler of `bootstrap-key/route.ts` (config endpoint): read
the effective settings and answer with the non-secret fields, exposing the
API key only as `Boolean(s.apiKey)`. -/
def configGET (s : Settings) : ConfigResp :=
  { ok := true
    model := s.model
    language := s.language
    vectorStoreId := s.vectorStoreId
    hasApiKey := match s.apiKey with
      | some k => !k.isEmpty
      | none => false }

-- ---------------------------------------------------------------------------
-- POST /api/bootstrap-key
-- ---------------------------------------------------------------------------

/-- The request body type `BootstrapBody` of `bootstrap-key/route.ts`. -/
structure BootstrapBody where
  apiKey : Option Str
  model : Option Str
  language : Option Str
  vectorStoreId : Option Str
  rotate : Option Bool
  verboseOpenAI : Option Bool

/-- Response bodies of the bootstrap endpoint: `\x7bok:false, error\x7d`,
`\x7bok:true, alreadyConfigured:true, merged:true\x7d`, or
`\x7bok:true, saved:true, last4\x7d`. -/
inductive BootstrapRespBody where
  | errB (error : Str) : BootstrapRespBody
  | alreadyConfiguredB : BootstrapRespBody
  | savedB (last4 : Str) : BootstrapRespBody

/-- An HTTP response of the bootstrap endpoint. -/
structure BootstrapResp where
  status : Nat
  body : BootstrapRespBody

/-- JavaScript object spread `\x7b...v\x7d`: an object contributes its
entries, an array its indexed elements, a string its indexed characters,
any other value nothing. -/
def spreadEntries : JVal → List (Str × JVal)
  | jobj es => es
  | jarr xs => (xs.enum.map (fun p => (natToStr p.1, p.2)))
  | jstr s => (s.enum.map (fun p => (natToStr p.1, jstr [p.2])))
  | _ => []

/-- The merge performed on an existing, already-bootstrapped config object
(route lines 45–48): update `LLMConfig.Model`, `Language`, `VectorStoreId`
when the corresponding (trimmed) request field is non-empty, and always set
`VerboseOpenAI` (the request's `verboseOpenAI` is `Boolean`-coerced, so
`typeof` is always `"boolean"`). -/
def mergeConfig (prev : JVal) (model language vectorStoreId : Str)
    (verbose : Bool) : JVal :=
  let p1 := if !model.isEmpty then
      setM prev (sl "LLMConfig")
        (jobj (setEntries (spreadEntries (jsOrD (getM prev (sl "LLMConfig")) (jobj [])))
          (sl "Model") (jstr model)))
    else prev
  let p2 := if !language.isEmpty then setM p1 (sl "Language") (jstr language) else p1
  let p3 := if !vectorStoreId.isEmpty then
      setM p2 (sl "VectorStoreId") (jstr vectorStoreId) else p2
  setM p3 (sl "VerboseOpenAI") (jbool verbose)

/-- The fresh payload written when the config file is absent or `rotate` is
set (route lines 58–68). -/
def bootstrapPayload (apiKey model language vectorStoreId : Str)
    (verbose : Bool) : JVal :=
  jobj
    ([(sl "LLMConfig",
        jobj ([(sl "ApiKey", jstr apiKey)] ++
          (if !model.isEmpty then [(sl "Model", jstr model)] else [])))] ++
      (if !language.isEmpty then [(sl "Language", jstr language)] else []) ++
      (if !vectorStoreId.isEmpty then [(sl "VectorStoreId", jstr vectorStoreId)] else []) ++
      [(sl "VerboseOpenAI", jbool verbose)])

/-- The `POST /api/bootstrap-key` handler, as a transition on the config
file (the only state it touches) returning the new file content and the
HTTP response.  The existing-file merge branch mirrors the source's inner
`try/catch`: a file that does not parse, or parses to a primitive (on
which the strict-mode property writes throw), is left untouched; an array
survives re-serialization with its added properties dropped. -/
def bootstrapPOST (file : ConfigFile) (body : BootstrapBody) :
    ConfigFile × BootstrapResp :=
  let apiKey := trimStr (body.apiKey.getD [])
  let model := trimStr (body.model.getD [])
  let language := trimStr (body.language.getD [])
  let vectorStoreId := trimStr (body.vectorStoreId.getD [])
  let rotate := body.rotate.getD false
  let verbose := body.verboseOpenAI.getD false
  if apiKey.isEmpty then
    (file, ⟨400, .errB (sl "Missing apiKey")⟩)
  else
    match file, rotate with
    | some content, false =>
      let newFile :=
        if verbose || !model.isEmpty || !language.isEmpty || !vectorStoreId.isEmpty then
          match jsonParse content with
          | some (jobj es) =>
            some (stringify2 (mergeConfig (jobj es) model language vectorStoreId verbose))
          | some (jarr xs) => some (stringify2 (jarr xs))
          | _ => some content
        else some content
      (newFile, ⟨200, .alreadyConfiguredB⟩)
    | _, _ =>
      let payload := bootstrapPayload apiKey model language vectorStoreId verbose
      (some (stringify2 payload), ⟨200, .savedB (takeRight apiKey 4)⟩)

-- ---------------------------------------------------------------------------
-- pdfToImages (route.ts lines 19–44)
-- ---------------------------------------------------------------------------

/-- The page-collecting loop of `pdfToImages`: walk the document's pages
with their 1-based numbers, keep those in `pagesToExtract`, and pipe each
kept page through the (fallible) PNG encoder, prefixing the data-URL
header.  Any encoder failure aborts the whole loop. -/
def collectPages {α : Type} (encode : α → Except Unit Str)
    (pagesToExtract : List Nat) : Nat → List α → Except Unit (List Str)
  | _, [] => .ok []
  | pageNumber, p :: rest =>
    if pageNumber ∈ pagesToExtract then
      match encode p with
      | .error e => .error e
      | .ok b64 =>
        match collectPages encode pagesToExtract (pageNumber + 1) rest with
        | .error e => .error e
        | .ok imgs => .ok ((sl "data:image/png;base64," ++ b64) :: imgs)
    else collectPages encode pagesToExtract (pageNumber + 1) rest

/-- `pdfToImages`: `render` models `pdf(pdfBuffer, \x7bscale: 2.0\x7d)` (the
document's pages, or a rendering failure) and `encode` the
`sharp(...).png(...).toBuffer()` + base64 step for one page.  Every
failure path is caught and mapped to the empty list. -/
def pdfToImages {α : Type} (render : Except Unit (List α))
    (encode : α → Except Unit Str) (pagesToExtract : List Nat) : List Str :=
  match render with
  | .error _ => []
  | .ok pages =>
    match collectPages encode pagesToExtract 1 pages with
    | .error _ => []
    | .ok images => images

/-- Proof-side abbreviation: the trigger condition of the page-1 load
check, as a function of the `page1` member. -/
def loadCond (o : Option JVal) : Bool :=
  match o with
  | some p =>
    if p.truthy then
      match getM p (sl "left_load_pct"), getM p (sl "right_load_pct") with
      | some (jnum a), some (jnum b) => !(98 ≤ ratAdd a b && ratAdd a b ≤ 102)
      | _, _ => false
    else false
  | none => false

/-- Proof-side abbreviation: trigger condition of the `ml_x → ml` rename. -/
def mlCond (f : JVal) : Bool :=
  match getM f (sl "ml_x") with
  | some mx => mx.truthy && !truthyO (getM f (sl "ml"))
  | none => false

/-- Proof-side abbreviation: trigger condition of the `ap_y → ap` rename. -/
def apCond (f : JVal) : Bool :=
  match getM f (sl "ap_y") with
  | some ay => ay.truthy && !truthyO (getM f (sl "ap"))
  | none => false

/-- Reading a value along a member path (spec-side helper). -/
def getPath (v : JVal) (ks : List Str) : Option JVal :=
  ks.foldl (fun o k => o.bind (fun w => getM w k)) (some v)

/-- An extraction response whose stage-A loads sum to 120 ∉ [98, 102]. -/
def c2Input : Str := sl "<<<JSON_START>>>\x7b\"patient\":\x7b\x7d,\"tests\":\x7b\"A\":\x7b\"page1\":\x7b\"left_load_pct\":70,\"right_load_pct\":50\x7d\x7d\x7d,\"comparisons\":\x7b\x7d\x7d<<<JSON_END>>>"

/-- The extraction JSON the route returns for `c2Input`. -/
def c2V : JVal := jobj
  [(sl "patient", jobj []),
   (sl "tests", jobj [(sl "A", jobj [(sl "page1",
      jobj [(sl "left_load_pct", jnum 70), (sl "right_load_pct", jnum 50)])])]),
   (sl "comparisons", jobj [])]

set_option maxRecDepth 10000

-- ---------------------------------------------------------------------------
-- Lemmas about the object primitives
-- ---------------------------------------------------------------------------

/-- `ratAdd` agrees with ordinary rational addition. -/
theorem ratAdd_eq_add (a b : ℚ) : ratAdd a b = a + b := by
  unfold ratAdd
  rw [Rat.mkRat_eq_div]
  have ha : ((a.den : ℚ)) ≠ 0 := by exact_mod_cast a.den_nz
  have hb : ((b.den : ℚ)) ≠ 0 := by exact_mod_cast b.den_nz
  conv_rhs => rw [← Rat.num_div_den a, ← Rat.num_div_den b]
  rw [div_add_div _ _ ha hb]
  push_cast
  ring_nf



theorem getM_jobj (es : List (Str × JVal)) (k : Str) :
    getM (jobj es) k = (es.find? (fun e => e.1 = k)).map (·.2) := rfl

theorem find?_setEntries_same (es : List (Str × JVal)) (k : Str) (x : JVal) :
    ((setEntries es k x).find? (fun e => e.1 = k)).map (·.2) = some x := by
  induction es with
  | nil => simp [setEntries]
  | cons e rest ih =>
    rcases e with ⟨a, v⟩
    by_cases h : a = k
    · simp only [setEntries]
      rw [if_pos h, List.find?_cons_of_pos _ (by simp [h])]
      simp
    · simp only [setEntries]
      rw [if_neg h, List.find?_cons_of_neg _ (by simp [h])]
      exact ih

theorem find?_setEntries_ne (es : List (Str × JVal)) (k k' : Str) (x : JVal)
    (hk : k ≠ k') :
    (setEntries es k' x).find? (fun e => e.1 = k) = es.find? (fun e => e.1 = k) := by
  induction es with
  | nil =>
    simp only [setEntries, List.find?_nil]
    rw [List.find?_cons_of_neg _ (by simp [Ne.symm hk]), List.find?_nil]
  | cons e rest ih =>
    rcases e with ⟨a, v⟩
    by_cases h : a = k'
    · have ha : ¬(a = k) := fun hak => hk (hak ▸ h ▸ rfl)
      simp only [setEntries]
      rw [if_pos h, List.find?_cons_of_neg _ (by simp [ha]),
        List.find?_cons_of_neg _ (by simp [ha])]
    · simp only [setEntries]
      rw [if_neg h]
      by_cases h2 : a = k
      · rw [List.find?_cons_of_pos _ (by simp [h2]),
          List.find?_cons_of_pos _ (by simp [h2])]
      · rw [List.find?_cons_of_neg _ (by simp [h2]),
          List.find?_cons_of_neg _ (by simp [h2])]
        exact ih

theorem getM_setM_same (es : List (Str × JVal)) (k : Str) (x : JVal) :
    getM (setM (jobj es) k x) k = some x := by
  simp only [setM, getM_jobj]
  exact find?_setEntries_same es k x

theorem getM_setM_ne (v : JVal) (k k' : Str) (x : JVal) (hk : k ≠ k') :
    getM (setM v k' x) k = getM v k := by
  cases v with
  | jobj es => simp only [setM, getM_jobj]; rw [find?_setEntries_ne es k k' x hk]
  | jnull => rfl
  | jbool b => rfl
  | jnum q => rfl
  | jstr s => rfl
  | jarr xs => rfl

theorem find?_modEntries_same (es : List (Str × JVal)) (k : Str) (f : JVal → JVal) :
    ((modEntries f es k).find? (fun e => e.1 = k)).map (·.2) =
      ((es.find? (fun e => e.1 = k)).map (·.2)).map f := by
  induction es with
  | nil => simp [modEntries]
  | cons e rest ih =>
    rcases e with ⟨a, v⟩
    by_cases h : a = k
    · simp only [modEntries]
      rw [if_pos h, List.find?_cons_of_pos _ (by simp [h]),
        List.find?_cons_of_pos _ (by simp [h])]
      simp
    · simp only [modEntries]
      rw [if_neg h, List.find?_cons_of_neg _ (by simp [h]),
        List.find?_cons_of_neg _ (by simp [h])]
      exact ih

theorem find?_modEntries_ne (es : List (Str × JVal)) (k k' : Str) (f : JVal → JVal)
    (hk : k ≠ k') :
    (modEntries f es k').find? (fun e => e.1 = k) = es.find? (fun e => e.1 = k) := by
  induction es with
  | nil => simp [modEntries]
  | cons e rest ih =>
    rcases e with ⟨a, v⟩
    by_cases h : a = k'
    · have ha : ¬(a = k) := fun hak => hk (hak ▸ h ▸ rfl)
      simp only [modEntries]
      rw [if_pos h, List.find?_cons_of_neg _ (by simp [ha]),
        List.find?_cons_of_neg _ (by simp [ha])]
    · simp only [modEntries]
      rw [if_neg h]
      by_cases h2 : a = k
      · rw [List.find?_cons_of_pos _ (by simp [h2]),
          List.find?_cons_of_pos _ (by simp [h2])]
      · rw [List.find?_cons_of_neg _ (by simp [h2]),
          List.find?_cons_of_neg _ (by simp [h2])]
        exact ih

theorem getM_modM_same (v : JVal) (k : Str) (f : JVal → JVal) :
    getM (modM v k f) k = (getM v k).map f := by
  cases v with
  | jobj es => simp only [modM, getM_jobj]; rw [find?_modEntries_same es k f]
  | jnull => rfl
  | jbool b => rfl
  | jnum q => rfl
  | jstr s => rfl
  | jarr xs => rfl

theorem getM_modM_ne (v : JVal) (k k' : Str) (f : JVal → JVal) (hk : k ≠ k') :
    getM (modM v k' f) k = getM v k := by
  cases v with
  | jobj es => simp only [modM, getM_jobj]; rw [find?_modEntries_ne es k k' f hk]
  | jnull => rfl
  | jbool b => rfl
  | jnum q => rfl
  | jstr s => rfl
  | jarr xs => rfl

theorem getM_delM_same (v : JVal) (k : Str) : getM (delM v k) k = none := by
  cases v with
  | jobj es =>
    simp only [delM, getM_jobj]
    have hnone : (es.filter (fun e => !(e.1 = k : Bool))).find? (fun e => e.1 = k) = none := by
      rw [List.find?_eq_none]
      intro e he
      have := List.of_mem_filter he
      simpa using this
    rw [hnone]
    rfl
  | jnull => rfl
  | jbool b => rfl
  | jnum q => rfl
  | jstr s => rfl
  | jarr xs => rfl

theorem getM_delM_ne (v : JVal) (k k' : Str) (hk : k ≠ k') :
    getM (delM v k') k = getM v k := by
  cases v with
  | jobj es =>
    simp only [delM, getM_jobj]
    congr 1
    induction es with
    | nil => simp
    | cons e rest ih =>
      rcases e with ⟨a, v'⟩
      rw [List.filter_cons]
      by_cases h : a = k'
      · have ha : ¬(a = k) := fun hak => hk (hak ▸ h ▸ rfl)
        rw [if_neg (by simp [h])]
        rw [List.find?_cons_of_neg _ (by simp [ha])]
        exact ih
      · rw [if_pos (by simp [h])]
        by_cases h2 : a = k
        · rw [List.find?_cons_of_pos _ (by simp [h2]),
            List.find?_cons_of_pos _ (by simp [h2])]
        · rw [List.find?_cons_of_neg _ (by simp [h2]),
            List.find?_cons_of_neg _ (by simp [h2])]
          exact ih
  | jnull => rfl
  | jbool b => rfl
  | jnum q => rfl
  | jstr s => rfl
  | jarr xs => rfl

theorem modEntries_modEntries_same (es : List (Str × JVal)) (k : Str)
    (f g : JVal → JVal) :
    modEntries g (modEntries f es k) k = modEntries (fun x => g (f x)) es k := by
  induction es with
  | nil => simp [modEntries]
  | cons e rest ih =>
    rcases e with ⟨a, v⟩
    by_cases h : a = k
    · simp [modEntries, h]
    · simp [modEntries, h, ih]

theorem modM_modM_same (v : JVal) (k : Str) (f g : JVal → JVal) :
    modM (modM v k f) k g = modM v k (fun x => g (f x)) := by
  cases v with
  | jobj es => simp only [modM]; rw [modEntries_modEntries_same]
  | jnull => rfl
  | jbool b => rfl
  | jnum q => rfl
  | jstr s => rfl
  | jarr xs => rfl

theorem modEntries_comm (es : List (Str × JVal)) (k k' : Str)
    (f g : JVal → JVal) (hk : k ≠ k') :
    modEntries g (modEntries f es k) k' = modEntries f (modEntries g es k') k := by
  induction es with
  | nil => simp [modEntries]
  | cons e rest ih =>
    rcases e with ⟨a, v⟩
    by_cases h : a = k
    · have h' : ¬(a = k') := fun hak => hk (h ▸ hak ▸ rfl)
      simp [modEntries, h, h', hk, Ne.symm hk]
    · by_cases h2 : a = k'
      · simp [modEntries, h, h2, hk, Ne.symm hk]
      · simp [modEntries, h, h2, ih]

theorem modM_comm (v : JVal) (k k' : Str) (f g : JVal → JVal) (hk : k ≠ k') :
    modM (modM v k f) k' g = modM (modM v k' g) k f := by
  cases v with
  | jobj es => simp only [modM]; rw [modEntries_comm es k k' f g hk]
  | jnull => rfl
  | jbool b => rfl
  | jnum q => rfl
  | jstr s => rfl
  | jarr xs => rfl

/-- A defined member read forces the value to be an object. -/
theorem getM_some_jobj {v : JVal} {k : Str} {x : JVal} (h : getM v k = some x) :
    ∃ es, v = jobj es := by
  cases v with
  | jobj es => exact ⟨es, rfl⟩
  | jnull => simp [getM] at h
  | jbool b => simp [getM] at h
  | jnum q => simp [getM] at h
  | jstr s => simp [getM] at h
  | jarr xs => simp [getM] at h

/-- `setM` and `modM` keep objects objects. -/
theorem setM_jobj (es : List (Str × JVal)) (k : Str) (x : JVal) :
    setM (jobj es) k x = jobj (setEntries es k x) := rfl

theorem modM_jobj (es : List (Str × JVal)) (k : Str) (f : JVal → JVal) :
    modM (jobj es) k f = jobj (modEntries f es k) := rfl

-- ---------------------------------------------------------------------------
-- Idempotence of normalizeExtraction
-- ---------------------------------------------------------------------------

theorem loadPart_eq (t : JVal) :
    loadPart t = if loadCond (getM t (sl "page1")) then
      modM t (sl "page1") nullifyLoads else t := by
  cases hp : getM t (sl "page1") with
  | none => simp [loadPart, loadCond, hp]
  | some p =>
    by_cases ht : p.truthy
    · cases hl : getM p (sl "left_load_pct") with
      | none => simp [loadPart, loadCond, hp, hl, ht]
      | some l =>
        cases l with
        | jnum a =>
          cases hr : getM p (sl "right_load_pct") with
          | none => simp [loadPart, loadCond, hp, hl, hr, ht]
          | some r => cases r <;> simp [loadPart, loadCond, hp, hl, hr, ht]
        | jnull => simp [loadPart, loadCond, hp, hl, ht]
        | jbool c => simp [loadPart, loadCond, hp, hl, ht]
        | jstr c => simp [loadPart, loadCond, hp, hl, ht]
        | jarr c => simp [loadPart, loadCond, hp, hl, ht]
        | jobj c => simp [loadPart, loadCond, hp, hl, ht]
    · simp [loadPart, loadCond, hp, ht]

theorem truthy_modM (v : JVal) (k : Str) (f : JVal → JVal) :
    (modM v k f).truthy = v.truthy := by
  cases v <;> rfl

theorem truthy_setM (v : JVal) (k : Str) (x : JVal) :
    (setM v k x).truthy = v.truthy := by
  cases v <;> rfl

theorem truthy_delM (v : JVal) (k : Str) :
    (delM v k).truthy = v.truthy := by
  cases v <;> rfl

theorem truthy_loadPart (t : JVal) : (loadPart t).truthy = t.truthy := by
  rw [loadPart_eq]
  by_cases h : loadCond (getM t (sl "page1")) = true
  · rw [if_pos h, truthy_modM]
  · rw [if_neg h]

/-- After the load check has run, its trigger condition is off: either it
did not fire, or both percentages are now `null` (not numbers). -/
theorem loadCond_loadPart (t : JVal) :
    loadCond (getM (loadPart t) (sl "page1")) = false := by
  rw [loadPart_eq]
  by_cases h : loadCond (getM t (sl "page1")) = true
  · rw [if_pos h, getM_modM_same]
    cases hp : getM t (sl "page1") with
    | none => rw [hp] at h; simp [loadCond] at h
    | some p =>
      rw [hp] at h
      by_cases ht : p.truthy
      · cases hl : getM p (sl "left_load_pct") with
        | none => simp [loadCond, ht, hl] at h
        | some l =>
          cases l with
          | jnum a =>
            obtain ⟨es, hes⟩ := getM_some_jobj hl
            have hset : getM (nullifyLoads p) (sl "left_load_pct") = some jnull := by
              unfold nullifyLoads
              rw [getM_setM_ne _ _ _ _ (by decide), hes]
              exact getM_setM_same _ _ _
            have htr : (nullifyLoads p).truthy = true := by
              unfold nullifyLoads
              rw [truthy_setM, truthy_setM]
              exact ht
            simp [loadCond, htr, hset]
          | jnull => simp [loadCond, ht, hl] at h
          | jbool c => simp [loadCond, ht, hl] at h
          | jstr c => simp [loadCond, ht, hl] at h
          | jarr c => simp [loadCond, ht, hl] at h
          | jobj c => simp [loadCond, ht, hl] at h
      · simp [loadCond, ht] at h
  · rw [if_neg h]
    simpa using h

theorem mlStep_eq (f : JVal) :
    mlStep f = if mlCond f then
      delM (setM f (sl "ml") ((getM f (sl "ml_x")).getD jnull)) (sl "ml_x")
    else f := by
  cases hmx : getM f (sl "ml_x") with
  | none => simp [mlStep, mlCond, hmx]
  | some mx => by_cases hc : (mx.truthy && !truthyO (getM f (sl "ml"))) = true
               · simp [mlStep, mlCond, hmx, hc]
               · simp [mlStep, mlCond, hmx, hc]

theorem apStep_eq (f : JVal) :
    apStep f = if apCond f then
      delM (setM f (sl "ap") ((getM f (sl "ap_y")).getD jnull)) (sl "ap_y")
    else f := by
  cases hay : getM f (sl "ap_y") with
  | none => simp [apStep, apCond, hay]
  | some ay => by_cases hc : (ay.truthy && !truthyO (getM f (sl "ap"))) = true
               · simp [apStep, apCond, hay, hc]
               · simp [apStep, apCond, hay, hc]

/-- After `mlStep` the rename condition is off (the `ml_x` key is gone, or
nothing happened and it was off already). -/
theorem mlCond_mlStep (f : JVal) : mlCond (mlStep f) = false := by
  rw [mlStep_eq]
  by_cases h : mlCond f = true
  · rw [if_pos h]
    unfold mlCond
    rw [getM_delM_same]
  · rw [if_neg h]
    simpa using h

theorem apCond_apStep (f : JVal) : apCond (apStep f) = false := by
  rw [apStep_eq]
  by_cases h : apCond f = true
  · rw [if_pos h]
    unfold apCond
    rw [getM_delM_same]
  · rw [if_neg h]
    simpa using h

/-- `mlCond` only looks at the `ml_x` and `ml` members. -/
theorem mlCond_congr (f g : JVal)
    (h1 : getM g (sl "ml_x") = getM f (sl "ml_x"))
    (h2 : getM g (sl "ml") = getM f (sl "ml")) : mlCond g = mlCond f := by
  unfold mlCond
  rw [h1, h2]

theorem apCond_congr (f g : JVal)
    (h1 : getM g (sl "ap_y") = getM f (sl "ap_y"))
    (h2 : getM g (sl "ap") = getM f (sl "ap")) : apCond g = apCond f := by
  unfold apCond
  rw [h1, h2]

theorem mlStep_of_cond_false (f : JVal) (h : mlCond f = false) : mlStep f = f := by
  rw [mlStep_eq, h]
  simp

theorem apStep_of_cond_false (f : JVal) (h : apCond f = false) : apStep f = f := by
  rw [apStep_eq, h]
  simp

/-- `apStep` never touches the `ml_x`/`ml` members. -/
theorem getM_apStep_ml_x (f : JVal) :
    getM (apStep f) (sl "ml_x") = getM f (sl "ml_x") := by
  rw [apStep_eq]
  by_cases h : apCond f = true
  · rw [if_pos h, getM_delM_ne _ _ _ (by decide), getM_setM_ne _ _ _ _ (by decide)]
  · rw [if_neg h]

theorem getM_apStep_ml (f : JVal) :
    getM (apStep f) (sl "ml") = getM f (sl "ml") := by
  rw [apStep_eq]
  by_cases h : apCond f = true
  · rw [if_pos h, getM_delM_ne _ _ _ (by decide), getM_setM_ne _ _ _ _ (by decide)]
  · rw [if_neg h]

theorem mlStep_idem (f : JVal) : mlStep (mlStep f) = mlStep f :=
  mlStep_of_cond_false _ (mlCond_mlStep f)

theorem apStep_idem (f : JVal) : apStep (apStep f) = apStep f :=
  apStep_of_cond_false _ (apCond_apStep f)

theorem renameFft_idem (f : JVal) : renameFft (renameFft f) = renameFft f := by
  unfold renameFft
  have h1 : mlStep (apStep (mlStep f)) = apStep (mlStep f) := by
    apply mlStep_of_cond_false
    rw [mlCond_congr (mlStep f) _ (getM_apStep_ml_x _) (getM_apStep_ml _)]
    exact mlCond_mlStep f
  rw [h1, apStep_idem]

theorem truthy_mlStep (f : JVal) : (mlStep f).truthy = f.truthy := by
  rw [mlStep_eq]
  by_cases h : mlCond f = true
  · rw [if_pos h, truthy_delM, truthy_setM]
  · rw [if_neg h]

theorem truthy_apStep (f : JVal) : (apStep f).truthy = f.truthy := by
  rw [apStep_eq]
  by_cases h : apCond f = true
  · rw [if_pos h, truthy_delM, truthy_setM]
  · rw [if_neg h]

theorem truthy_renameFft (f : JVal) : (renameFft f).truthy = f.truthy := by
  unfold renameFft
  rw [truthy_apStep, truthy_mlStep]

theorem fftPart_eq (t : JVal) :
    fftPart t = if truthyO (getM t (sl "page4_fft")) then
      modM t (sl "page4_fft") renameFft else t := by
  cases hf : getM t (sl "page4_fft") with
  | none => simp [fftPart, truthyO, hf]
  | some f => by_cases ht : f.truthy
              · simp [fftPart, truthyO, hf, ht]
              · simp [fftPart, truthyO, hf, ht]

theorem truthy_fftPart (t : JVal) : (fftPart t).truthy = t.truthy := by
  rw [fftPart_eq]
  by_cases h : truthyO (getM t (sl "page4_fft")) = true
  · rw [if_pos h, truthy_modM]
  · rw [if_neg h]

theorem fftPart_idem (t : JVal) : fftPart (fftPart t) = fftPart t := by
  rw [fftPart_eq t]
  by_cases h : truthyO (getM t (sl "page4_fft")) = true
  · rw [if_pos h]
    rw [fftPart_eq]
    have hm : getM (modM t (sl "page4_fft") renameFft) (sl "page4_fft") =
        (getM t (sl "page4_fft")).map renameFft := getM_modM_same _ _ _
    cases hf : getM t (sl "page4_fft") with
    | none => rw [hf] at h; simp [truthyO] at h
    | some f =>
      rw [hf] at hm
      rw [hm]
      have ht : truthyO (Option.map renameFft (some f)) = true := by
        rw [hf] at h
        simpa [truthyO, truthy_renameFft] using h
      rw [if_pos ht, modM_modM_same]
      have hfun : (fun x => renameFft (renameFft x)) = renameFft := by
        funext x
        exact renameFft_idem x
      rw [hfun]
  · rw [if_neg h]
    rw [fftPart_eq]
    rw [if_neg h]

/-- `fftPart` leaves the `page1` member alone. -/
theorem getM_fftPart_page1 (t : JVal) :
    getM (fftPart t) (sl "page1") = getM t (sl "page1") := by
  rw [fftPart_eq]
  by_cases h : truthyO (getM t (sl "page4_fft")) = true
  · rw [if_pos h, getM_modM_ne _ _ _ _ (by decide)]
  · rw [if_neg h]

/-- A second run of the load check after a full `normStage` is inert. -/
theorem loadPart_absorb (t : JVal) :
    loadPart (fftPart (loadPart t)) = fftPart (loadPart t) := by
  rw [loadPart_eq (fftPart (loadPart t)), getM_fftPart_page1, loadCond_loadPart]
  simp

theorem normStage_idem (t : JVal) : normStage (normStage t) = normStage t := by
  unfold normStage
  rw [loadPart_absorb, fftPart_idem]

theorem truthy_normStage (t : JVal) : (normStage t).truthy = t.truthy := by
  unfold normStage
  rw [truthy_fftPart, truthy_loadPart]

theorem normKey_eq (e : JVal) (k : Str) :
    normKey e k = if truthyO (getM2 e (sl "tests") k) then
      modM e (sl "tests") (fun tv => modM tv k normStage) else e := by
  cases ht : getM2 e (sl "tests") k with
  | none => simp [normKey, truthyO, ht]
  | some t => by_cases htr : t.truthy
              · simp [normKey, truthyO, ht, htr]
              · simp [normKey, truthyO, ht, htr]

/-- The guard of stage `k` is unaffected by the update of a different
stage `k'`. -/
theorem getM2_tests_modM_ne (e : JVal) (k k' : Str) (hk : k ≠ k') :
    getM2 (modM e (sl "tests") (fun tv => modM tv k' normStage)) (sl "tests") k =
      getM2 e (sl "tests") k := by
  unfold getM2
  rw [getM_modM_same]
  cases hT : getM e (sl "tests") with
  | none => rfl
  | some tv =>
    show getM (modM tv k' normStage) k = getM tv k
    exact getM_modM_ne tv k k' normStage hk

theorem getM2_tests_modM_same (e : JVal) (k : Str) :
    getM2 (modM e (sl "tests") (fun tv => modM tv k normStage)) (sl "tests") k =
      (getM2 e (sl "tests") k).map normStage := by
  unfold getM2
  rw [getM_modM_same]
  cases hT : getM e (sl "tests") with
  | none => rfl
  | some tv =>
    show getM (modM tv k normStage) k = (getM tv k).map normStage
    exact getM_modM_same tv k normStage

theorem normKey_idem (e : JVal) (k : Str) : normKey (normKey e k) k = normKey e k := by
  rw [normKey_eq e k]
  by_cases hg : truthyO (getM2 e (sl "tests") k) = true
  · rw [if_pos hg, normKey_eq, getM2_tests_modM_same]
    cases ht : getM2 e (sl "tests") k with
    | none => rw [ht] at hg; simp [truthyO] at hg
    | some t =>
      have htr : truthyO ((some t).map normStage) = true := by
        rw [ht] at hg
        simpa [truthyO, truthy_normStage] using hg
      rw [if_pos htr, modM_modM_same]
      have hfun : (fun tv => modM (modM tv k normStage) k normStage) =
          (fun tv => modM tv k normStage) := by
        funext tv
        rw [modM_modM_same]
        have : (fun x => normStage (normStage x)) = normStage := by
          funext x
          exact normStage_idem x
        rw [this]
      rw [hfun]
  · rw [if_neg hg, normKey_eq, if_neg hg]

theorem normKey_comm (e : JVal) (k k' : Str) (hk : k ≠ k') :
    normKey (normKey e k) k' = normKey (normKey e k') k := by
  rw [normKey_eq e k, normKey_eq e k']
  by_cases h1 : truthyO (getM2 e (sl "tests") k) = true
  · by_cases h2 : truthyO (getM2 e (sl "tests") k') = true
    · rw [if_pos h1, if_pos h2, normKey_eq, normKey_eq]
      rw [getM2_tests_modM_ne e k' k (Ne.symm hk), getM2_tests_modM_ne e k k' hk]
      rw [if_pos h1, if_pos h2, modM_modM_same, modM_modM_same]
      have hfun : (fun x => (fun tv => modM tv k' normStage) ((fun tv => modM tv k normStage) x)) =
          (fun x => (fun tv => modM tv k normStage) ((fun tv => modM tv k' normStage) x)) := by
        funext tv
        exact modM_comm tv k k' normStage normStage hk
      rw [hfun]
    · rw [if_pos h1, if_neg h2, normKey_eq, normKey_eq]
      rw [getM2_tests_modM_ne e k' k (Ne.symm hk)]
      rw [if_neg h2, if_pos h1]
  · by_cases h2 : truthyO (getM2 e (sl "tests") k') = true
    · rw [if_neg h1, if_pos h2, normKey_eq, normKey_eq]
      rw [getM2_tests_modM_ne e k k' hk]
      rw [if_pos h2, if_neg h1]
    · rw [if_neg h1, if_neg h2, normKey_eq, normKey_eq]
      rw [if_neg h1, if_neg h2]

theorem normalizeExtraction_eq (ex : JVal) :
    normalizeExtraction ex = normKey (normKey (normKey ex (sl "A")) (sl "B")) (sl "C") := rfl

-- ---------------------------------------------------------------------------
-- Claim C5
-- ---------------------------------------------------------------------------

/-- C5.  Normalization is idempotent: for every extraction value `x`,
`normalizeExtraction (normalizeExtraction x) = normalizeExtraction x` —
both the load-percentage nulling and the renaming of the legacy FFT keys
(`ml_x` to `ml`, `ap_y` to `ap`) produce the same result when applied
twice as when applied once. -/
theorem normalizeExtraction_idempotent (x : JVal) :
    normalizeExtraction (normalizeExtraction x) = normalizeExtraction x := by
  rw [normalizeExtraction_eq, normalizeExtraction_eq x]
  have hAB : (sl "A") ≠ (sl "B") := by decide
  have hAC : (sl "A") ≠ (sl "C") := by decide
  have hBC : (sl "B") ≠ (sl "C") := by decide
  set u := normKey (normKey (normKey x (sl "A")) (sl "B")) (sl "C") with hu
  have h1 : normKey u (sl "A") = u := by
    rw [hu]
    rw [← normKey_comm _ (sl "A") (sl "C") hAC]
    rw [← normKey_comm _ (sl "A") (sl "B") hAB]
    rw [normKey_idem]
  have h2 : normKey (normKey u (sl "A")) (sl "B") = u := by
    rw [h1, hu]
    rw [← normKey_comm _ (sl "B") (sl "C") hBC]
    rw [normKey_idem]
  rw [h2, h1] at *
  rw [h2]
  rw [hu]
  rw [normKey_idem]

-- ---------------------------------------------------------------------------
-- Claim C1: the extraction-response splitter
-- ---------------------------------------------------------------------------

theorem substringJS_of_le (s : Str) {a b : Nat} (h : a ≤ b) :
    substringJS s a b = (s.take b).drop a := by
  unfold substringJS
  rw [Nat.max_eq_right h, Nat.min_eq_left h]

theorem substringJS_zero (s : Str) (b : Nat) :
    substringJS s 0 b = s.take b := by
  rw [substringJS_of_le s (Nat.zero_le b), List.drop_zero]

/-- Characters of a prefix occurrence. -/
theorem occursAt_getElem? {pat s : Str} {i : Nat} (h : occursAt pat s i = true)
    (m : Nat) (hm : m < pat.length) : s[i + m]? = pat[m]? := by
  rw [occursAt, List.isPrefixOf_iff_prefix] at h
  obtain ⟨t, ht⟩ := h
  have h1 : (s.drop i)[m]? = (pat ++ t)[m]? := by rw [ht]
  rw [List.getElem?_drop, List.getElem?_append_left hm] at h1
  exact h1

/-- Helper: a character clash refutes an overlapping pair of occurrences. -/
theorem fence_char_clash {s : Str} {i e d : Nat} (j : Nat) (hj : j < 14)
    (hdj : d + j < 16) (hne : fenceEnd[j]? ≠ fenceStart[d + j]?)
    (hS : occursAt fenceStart s i = true) (hE : occursAt fenceEnd s e = true)
    (he : e = i + d) : False := by
  have h1 := occursAt_getElem? hE j (by rw [show fenceEnd.length = 14 from by decide]; exact hj)
  have h2 := occursAt_getElem? hS (d + j) (by rw [show fenceStart.length = 16 from by decide]; exact hdj)
  rw [he, show i + d + j = i + (d + j) from by omega] at h1
  exact hne (h1 ▸ h2 ▸ rfl)

/-- A `<<<JSON_END>>>` occurrence after a `<<<JSON_START>>>` occurrence
starts after the whole start marker: the two markers cannot overlap. -/
theorem fence_no_overlap {s : Str} {i e : Nat}
    (hS : occursAt fenceStart s i = true) (hE : occursAt fenceEnd s e = true)
    (hie : i < e) : i + 16 ≤ e := by
  by_contra hcon
  push_neg at hcon
  have hd1 : 1 ≤ e - i := by omega
  have hd15 : e - i ≤ 15 := by omega
  have he : e = i + (e - i) := by omega
  set d := e - i with hdd
  clear_value d
  interval_cases d
  · exact fence_char_clash 2 (by decide) (by decide) (by decide) hS hE he
  · exact fence_char_clash 1 (by decide) (by decide) (by decide) hS hE he
  · exact fence_char_clash 0 (by decide) (by decide) (by decide) hS hE he
  · exact fence_char_clash 0 (by decide) (by decide) (by decide) hS hE he
  · exact fence_char_clash 0 (by decide) (by decide) (by decide) hS hE he
  · exact fence_char_clash 0 (by decide) (by decide) (by decide) hS hE he
  · exact fence_char_clash 0 (by decide) (by decide) (by decide) hS hE he
  · exact fence_char_clash 0 (by decide) (by decide) (by decide) hS hE he
  · exact fence_char_clash 0 (by decide) (by decide) (by decide) hS hE he
  · exact fence_char_clash 0 (by decide) (by decide) (by decide) hS hE he
  · exact fence_char_clash 0 (by decide) (by decide) (by decide) hS hE he
  · exact fence_char_clash 0 (by decide) (by decide) (by decide) hS hE he
  · exact fence_char_clash 0 (by decide) (by decide) (by decide) hS hE he
  · exact fence_char_clash 0 (by decide) (by decide) (by decide) hS hE he
  · exact fence_char_clash 0 (by decide) (by decide) (by decide) hS hE he

/-- What a successful fallback-regex match guarantees. -/
theorem patientTailMatch_spec {s : Str} {i k : Nat}
    (h : patientTailMatch s = some (i, k)) :
    k < s.length ∧ s.get? i = some '\x7b' ∧ s.get? k = some '\x7d' ∧
      (s.drop (k + 1)).all isJsWs = true ∧
      ∃ j, i < j ∧ j + 9 ≤ k ∧ occursAt patientPat s j = true := by
  cases hb : lastBraceWs s with
  | none => simp only [patientTailMatch, hb] at h; exact absurd h (by simp)
  | some k0 =>
    cases hf : (List.range s.length).find? (patientMatchAt s k0) with
    | none => simp only [patientTailMatch, hb, hf] at h; exact absurd h (by simp)
    | some i0 =>
      simp only [patientTailMatch, hb, hf] at h
      have hik : i0 = i ∧ k0 = k := by simpa [Prod.ext_iff] using h
      obtain ⟨hi0, hk0⟩ := hik
      subst hi0; subst hk0
      have hbp := List.find?_some hb
      have hbm := List.mem_of_find?_eq_some hb
      rw [List.mem_reverse, List.mem_range] at hbm
      rw [Bool.and_eq_true, decide_eq_true_eq] at hbp
      have hfp := List.find?_some hf
      rw [patientMatchAt, Bool.and_eq_true, decide_eq_true_eq] at hfp
      obtain ⟨hbrace, hany⟩ := hfp
      rw [List.any_eq_true] at hany
      obtain ⟨j, _, hj⟩ := hany
      rw [Bool.and_eq_true, Bool.and_eq_true, decide_eq_true_eq, decide_eq_true_eq] at hj
      exact ⟨hbm, hbrace, hbp.1, hbp.2, j, hj.1.1, hj.2, hj.1.2⟩

/-- A prefix of a list is a prefix of any sufficiently long initial
segment of it. -/
theorem isPrefixOf_take {p l : Str} {m : Nat} (h : p.isPrefixOf l = true)
    (hm : p.length ≤ m) : p.isPrefixOf (l.take m) = true := by
  rw [List.isPrefixOf_iff_prefix] at h ⊢
  obtain ⟨t, ht⟩ := h
  refine ⟨t.take (m - p.length), ?_⟩
  rw [← ht, List.take_append_eq_append_take, List.take_of_length_le hm]

/-- The candidate the fallback regex captures starts with `\x7b`, ends with
`\x7d`, and contains the literal `"patient"`. -/
theorem candidate_facts {s : Str} {i k : Nat} (hk : k < s.length)
    (hbi : s.get? i = some '\x7b') (hbk : s.get? k = some '\x7d')
    (hj : ∃ j, i < j ∧ j + 9 ≤ k ∧ occursAt patientPat s j = true) :
    ((s.take (k + 1)).drop i).head? = some '\x7b' ∧
      ((s.take (k + 1)).drop i).getLast? = some '\x7d' ∧
      ∃ m, occursAt patientPat ((s.take (k + 1)).drop i) m = true := by
  obtain ⟨j, hij, hjk, hocc⟩ := hj
  have hik : i < k := by omega
  have hlen : ((s.take (k + 1)).drop i).length = k + 1 - i := by
    rw [List.length_drop, List.length_take]
    omega
  refine ⟨?_, ?_, ?_⟩
  · rw [List.head?_eq_getElem?, List.getElem?_drop, List.getElem?_take]
    rw [if_pos (by omega), Nat.add_zero]
    rw [List.get?_eq_getElem?] at hbi
    exact hbi
  · rw [List.getLast?_eq_getElem?, hlen, List.getElem?_drop, List.getElem?_take]
    rw [show i + (k + 1 - i - 1) = k from by omega, if_pos (by omega)]
    rw [List.get?_eq_getElem?] at hbk
    exact hbk
  · refine ⟨j - i, ?_⟩
    rw [occursAt, List.drop_drop, show i + (j - i) = j from by omega, List.drop_take]
    have h9 : patientPat.length = 9 := by decide
    apply isPrefixOf_take hocc
    rw [h9]
    omega

/-- C1.  The extraction-response splitter: when the text contains the
`<<<JSON_START>>>` marker and a later `<<<JSON_END>>>` occurrence, the text
before the first start marker (trimmed) becomes the diagnostics and the
text between the first start marker and the last end marker (trimmed) the
JSON candidate; when both markers are absent, the candidate is the trailing
`\x7b...\x7d` substring containing `"patient"` (followed only by whitespace)
whenever the fallback regex matches, and otherwise the text is split at the
first `\x7b` when it sits at a positive index; being a total function, the
parser returns a pair in every case (it never throws). -/
theorem parseExtractionResponse_spec (s : Str) :
    (∀ i e, firstOccIdx fenceStart s = some i → lastOccIdx fenceEnd s = some e →
      i < e →
      parseExtractionResponse s =
        (trimStr (s.take i), trimStr ((s.take e).drop (i + fenceStart.length)))) ∧
    (firstOccIdx fenceStart s = none → lastOccIdx fenceEnd s = none →
      (∀ i k, patientTailMatch s = some (i, k) →
        parseExtractionResponse s =
          (trimStr (s.take i), (s.take (k + 1)).drop i) ∧
        ((s.take (k + 1)).drop i).head? = some '\x7b' ∧
        ((s.take (k + 1)).drop i).getLast? = some '\x7d' ∧
        (∃ m, occursAt patientPat ((s.take (k + 1)).drop i) m = true) ∧
        (s.drop (k + 1)).all isJsWs = true) ∧
      (patientTailMatch s = none → ∀ n, firstBraceIdx s = some n → 0 < n →
        parseExtractionResponse s = (trimStr (s.take n), trimStr (s.drop n)))) ∧
    (∃ d c, parseExtractionResponse s = (d, c)) := by
  refine ⟨?_, ?_, ⟨_, _, rfl⟩⟩
  · intro i e hfs hfe hie
    have hSocc : occursAt fenceStart s i = true := List.find?_some hfs
    have hEocc : occursAt fenceEnd s e = true := List.find?_some hfe
    have h16 : i + 16 ≤ e := fence_no_overlap hSocc hEocc hie
    simp only [parseExtractionResponse, hfs, hfe]
    rw [if_pos hie, substringJS_zero,
      substringJS_of_le s (by rw [show fenceStart.length = 16 from by decide]; omega)]
  · intro hfs hfe
    refine ⟨?_, ?_⟩
    · intro i k hm
      obtain ⟨hk, hbi, hbk, hws, hj⟩ := patientTailMatch_spec hm
      have hik : i < k := by obtain ⟨j, h1, h2, _⟩ := hj; omega
      have hcands := candidate_facts hk hbi hbk hj
      refine ⟨?_, hcands.1, hcands.2.1, hcands.2.2, hws⟩
      simp only [parseExtractionResponse, hfs, hfe,
        parseExtractionResponse.parseExtractionFallback, hm]
      rw [substringJS_zero, substringJS_of_le s (by omega)]
    · intro hm n hfb hn
      simp only [parseExtractionResponse, hfs, hfe,
        parseExtractionResponse.parseExtractionFallback, hm, hfb]
      rw [if_pos hn, substringJS_zero]

/-- Witness for C1: all three branches exercised at concrete inputs. -/
theorem parseExtractionResponse_spec_witness :
    parseExtractionResponse (sl "d <<<JSON_START>>> j <<<JSON_END>>>") =
      (sl "d", sl "j") ∧
    parseExtractionResponse (sl "noise \x7b\"patient\":1\x7d ") =
      (sl "noise", sl "\x7b\"patient\":1\x7d") ∧
    parseExtractionResponse (sl "pre \x7bplain") = (sl "pre", sl "\x7bplain") := by
  refine ⟨?_, ?_, ?_⟩
  · have h := (parseExtractionResponse_spec
      (sl "d <<<JSON_START>>> j <<<JSON_END>>>")).1 2 21
      (by decide) (by decide) (by decide)
    rw [h]
    decide
  · have h := ((parseExtractionResponse_spec
      (sl "noise \x7b\"patient\":1\x7d ")).2.1 (by decide) (by decide)).1 6 18
      (by decide)
    rw [h.1]
    decide
  · have h := ((parseExtractionResponse_spec (sl "pre \x7bplain")).2.1
      (by decide) (by decide)).2 (by decide) 4 (by decide) (by decide)
    rw [h]
    decide

-- ---------------------------------------------------------------------------
-- Claim C6: cleanExtractedJson
-- ---------------------------------------------------------------------------

/-- C6.  For every input that parses as JSON, `cleanExtractedJson` returns
the serialization of an object whose top-level keys are exactly `patient`,
`tests` and `comparisons` (each defaulting to `\x7b\x7d` when absent from
the input), with every other top-level key discarded; for every input that
does not parse as JSON, it returns the input unchanged. -/
theorem cleanExtractedJson_spec (s : Str) :
    (∀ v, jsonParse s = some v →
      ∃ entries, cleanExtractedJson s = stringify2 (jobj entries) ∧
        entries.map Prod.fst = [sl "patient", sl "tests", sl "comparisons"] ∧
        (getM v (sl "patient") = none →
          getM (jobj entries) (sl "patient") = some (jobj [])) ∧
        (getM v (sl "tests") = none →
          getM (jobj entries) (sl "tests") = some (jobj [])) ∧
        (getM v (sl "comparisons") = none →
          getM (jobj entries) (sl "comparisons") = some (jobj [])) ∧
        (∀ k, k ≠ sl "patient" → k ≠ sl "tests" → k ≠ sl "comparisons" →
          getM (jobj entries) k = none)) ∧
    (jsonParse s = none → cleanExtractedJson s = s) := by
  constructor
  · intro v hv
    refine ⟨cleanEntries v, ?_, rfl, ?_, ?_, ?_, ?_⟩
    · simp only [cleanExtractedJson, hv]
    · intro h
      rw [getM_jobj, cleanEntries, List.find?_cons_of_pos _
        (by show decide ((sl "patient") = (sl "patient")) = true; decide)]
      simp [cleanKeep, h]
    · intro h
      rw [getM_jobj, cleanEntries,
        List.find?_cons_of_neg _
          (by show ¬decide ((sl "patient") = (sl "tests")) = true; decide),
        List.find?_cons_of_pos _
          (by show decide ((sl "tests") = (sl "tests")) = true; decide)]
      simp [cleanKeep, h]
    · intro h
      rw [getM_jobj, cleanEntries,
        List.find?_cons_of_neg _
          (by show ¬decide ((sl "patient") = (sl "comparisons")) = true; decide),
        List.find?_cons_of_neg _
          (by show ¬decide ((sl "tests") = (sl "comparisons")) = true; decide),
        List.find?_cons_of_pos _
          (by show decide ((sl "comparisons") = (sl "comparisons")) = true; decide)]
      simp [cleanKeep, h]
    · intro k h1 h2 h3
      rw [getM_jobj, cleanEntries,
        List.find?_cons_of_neg _ (by simp [Ne.symm h1]),
        List.find?_cons_of_neg _ (by simp [Ne.symm h2]),
        List.find?_cons_of_neg _ (by simp [Ne.symm h3]), List.find?_nil]
      rfl
  · intro h
    simp only [cleanExtractedJson, h]

/-- Witness for C6: a parseable input with a stray key and a falsy `tests`,
and a non-JSON input returned unchanged. -/
theorem cleanExtractedJson_spec_witness :
    (∃ entries,
      cleanExtractedJson (sl "\x7b\"patient\":\x7b\x7d,\"junk\":3\x7d") =
        stringify2 (jobj entries) ∧
      entries.map Prod.fst = [sl "patient", sl "tests", sl "comparisons"] ∧
      getM (jobj entries) (sl "junk") = none) ∧
    cleanExtractedJson (sl "oops") = sl "oops" := by
  constructor
  · obtain ⟨entries, h1, h2, _, _, _, h6⟩ :=
      (cleanExtractedJson_spec (sl "\x7b\"patient\":\x7b\x7d,\"junk\":3\x7d")).1
        (jobj [(sl "patient", jobj []), (sl "junk", jnum 3)]) (by rfl)
    exact ⟨entries, h1, h2, h6 _ (by decide) (by decide) (by decide)⟩
  · exact (cleanExtractedJson_spec (sl "oops")).2 (by rfl)

-- ---------------------------------------------------------------------------
-- Claim C3: empty extraction response and tolerated parse failures
-- ---------------------------------------------------------------------------

/-- Counterexample for C3 as stated: on an empty extraction output the
route does respond HTTP 500 with `ok:false`, but the error message is
`"Empty extraction response from model"`, not `"Empty extraction
response"`. -/
theorem analyzeRespond_empty_message_counterexample :
    analyzeRespond [] (sl "aug") =
      ⟨500, .failure (sl "Empty extraction response from model")⟩ ∧
    sl "Empty extraction response from model" ≠ sl "Empty extraction response" := by
  exact ⟨rfl, by decide⟩

/-- C3 (amended).  With the PDFs and API key in place, an empty or absent
extraction output makes the handler throw, and the response is HTTP 500
with `ok:false` and the message `"Empty extraction response from model"`,
with no partial data; a non-empty output whose isolated JSON candidate
fails to parse still gives HTTP 200 with `ok:true`, `extractionReportJson`
null and the raw candidate returned as `extractionReportText`. -/
theorem analyzeRespond_spec (s aug : Str) :
    (s = [] → analyzeRespond s aug =
      ⟨500, .failure (sl "Empty extraction response from model")⟩) ∧
    (s ≠ [] → tryParseJSON (parseExtractionResponse s).2 = none →
      analyzeRespond s aug =
        ⟨200, .success (parseExtractionResponse s).2 none aug⟩) := by
  constructor
  · intro h
    subst h
    rfl
  · intro hne hp
    have hclean : cleanExtractedJson (parseExtractionResponse s).2 =
        (parseExtractionResponse s).2 := by
      unfold cleanExtractedJson
      rw [show jsonParse (parseExtractionResponse s).2 = none from hp]
    unfold analyzeRespond
    rw [if_neg (by simpa [List.isEmpty_iff] using hne)]
    simp only [hclean, hp]

/-- Witness for C3 (amended): both branches at concrete inputs. -/
theorem analyzeRespond_spec_witness :
    analyzeRespond [] (sl "aug") =
      ⟨500, .failure (sl "Empty extraction response from model")⟩ ∧
    analyzeRespond (sl "hello") (sl "aug") =
      ⟨200, .success (sl "hello") none (sl "aug")⟩ := by
  constructor
  · exact (analyzeRespond_spec [] (sl "aug")).1 rfl
  · have h := (analyzeRespond_spec (sl "hello") (sl "aug")).2 (by decide) (by rfl)
    rw [h]
    rfl

-- ---------------------------------------------------------------------------
-- Claim C2: the route never applies normalizeExtraction
-- ---------------------------------------------------------------------------

/-- C2 fails on the code: `normalizeExtraction` is defined in the route
but never invoked, so the extraction payload the route returns keeps both
out-of-range load percentages (70 + 50 = 120 ∉ [98, 102]) as numbers,
whereas applying `normalizeExtraction` would null them both. -/
theorem analyze_missing_normalization_bug :
    (analyzeRespond c2Input (sl "aug")).status = 200 ∧
    (analyzeRespond c2Input (sl "aug")).body =
      .success (cleanExtractedJson (parseExtractionResponse c2Input).2)
        (some c2V) (sl "aug") ∧
    getPath c2V [sl "tests", sl "A", sl "page1", sl "left_load_pct"] =
      some (jnum 70) ∧
    getPath c2V [sl "tests", sl "A", sl "page1", sl "right_load_pct"] =
      some (jnum 50) ∧
    ¬((98 : ℚ) ≤ 70 + 50 ∧ (70 : ℚ) + 50 ≤ 102) ∧
    getPath (normalizeExtraction c2V)
      [sl "tests", sl "A", sl "page1", sl "left_load_pct"] = some jnull ∧
    getPath (normalizeExtraction c2V)
      [sl "tests", sl "A", sl "page1", sl "right_load_pct"] = some jnull := by
  refine ⟨rfl, by rfl, by rfl, by rfl, by norm_num, by rfl, by rfl⟩

-- ---------------------------------------------------------------------------
-- Claim C7: pdfToImages
-- ---------------------------------------------------------------------------

/-- The loop of `pdfToImages` on a successfully rendered document: one
data URL per page whose 1-based number is requested, in page order. -/
theorem collectPages_ok {α : Type} (encode : α → Except Unit Str) (f : α → Str)
    (req : List Nat) (henc : ∀ p, encode p = .ok (f p)) :
    ∀ (pages : List α) (n : Nat),
      collectPages encode req n pages =
        .ok (((pages.enumFrom n).filter (fun x => x.1 ∈ req)).map
          (fun x => sl "data:image/png;base64," ++ f x.2)) := by
  intro pages
  induction pages with
  | nil => intro n; rfl
  | cons p ps ih =>
    intro n
    by_cases hn : n ∈ req
    · simp [collectPages, hn, henc p, ih (n + 1), List.enumFrom]
    · simp [collectPages, hn, ih (n + 1), List.enumFrom]

/-- C7.  `pdfToImages` never throws: on a successful render (and encode)
it returns one base64 PNG data URL per document page whose 1-based page
number is in the requested list, in ascending page order, skipping pages
outside the requested set; if rendering (or any page's encoding) fails it
returns the empty list instead of raising. -/
theorem pdfToImages_spec {α : Type} (render : Except Unit (List α))
    (encode : α → Except Unit Str) (f : α → Str) (req : List Nat) :
    (render = .error () → pdfToImages render encode req = []) ∧
    (∀ pages, render = .ok pages → (∀ p, encode p = .ok (f p)) →
      pdfToImages render encode req =
        ((pages.enumFrom 1).filter (fun x => x.1 ∈ req)).map
          (fun x => sl "data:image/png;base64," ++ f x.2)) ∧
    (∀ pages e, render = .ok pages → collectPages encode req 1 pages = .error e →
      pdfToImages render encode req = []) := by
  refine ⟨?_, ?_, ?_⟩
  · intro h
    subst h
    rfl
  · intro pages h henc
    subst h
    simp only [pdfToImages, collectPages_ok encode f req henc pages 1]
  · intro pages e h hc
    subst h
    simp only [pdfToImages, hc]

/-- Witness for C7: a three-page document with pages 1 and 3 requested,
and a failing render. -/
theorem pdfToImages_spec_witness :
    pdfToImages (α := Str) (.ok [sl "p1", sl "p2", sl "p3"])
      (fun p => .ok p) [1, 3] =
      [sl "data:image/png;base64,p1", sl "data:image/png;base64,p3"] ∧
    pdfToImages (α := Str) (.error ()) (fun p => .ok p) [1, 3] = [] := by
  constructor
  · have h := (pdfToImages_spec (α := Str) (.ok [sl "p1", sl "p2", sl "p3"])
      (fun p => .ok p) (fun p => p) [1, 3]).2.1 _ rfl (fun p => rfl)
    rw [h]
    rfl
  · exact (pdfToImages_spec (α := Str) (.error ()) (fun p => .ok p)
      (fun p => p) [1, 3]).1 rfl

-- ---------------------------------------------------------------------------
-- Claim C9: GET /api/config never leaks the API key
-- ---------------------------------------------------------------------------

/-- C9.  `GET /api/config` answers with exactly the fields
`\x7bok, model, language, vectorStoreId, hasApiKey\x7d` (the `ConfigResp`
record), where `hasApiKey` is the boolean presence (truthiness) of the
API key; two settings states that differ only in their (non-empty) API key
strings produce identical responses — the key's value never appears. -/
theorem configGET_spec (s1 s2 : Settings) :
    (configGET s1).ok = true ∧
    ((configGET s1).hasApiKey = true ↔ ∃ k, s1.apiKey = some k ∧ k ≠ []) ∧
    (s1.model = s2.model → s1.language = s2.language →
      s1.vectorStoreId = s2.vectorStoreId →
      (∃ k1, s1.apiKey = some k1 ∧ k1 ≠ []) →
      (∃ k2, s2.apiKey = some k2 ∧ k2 ≠ []) →
      configGET s1 = configGET s2) := by
  refine ⟨rfl, ?_, ?_⟩
  · cases hk : s1.apiKey with
    | none => simp [configGET, hk]
    | some k => simp [configGET, hk, List.isEmpty_iff]
  · intro hm hl hv ⟨k1, hk1, hk1n⟩ ⟨k2, hk2, hk2n⟩
    unfold configGET
    rw [hm, hl, hv, hk1, hk2]
    simp only [ConfigResp.mk.injEq, and_true, true_and]
    rw [List.isEmpty_eq_false_iff_exists_mem.mpr, List.isEmpty_eq_false_iff_exists_mem.mpr]
    · cases k2 with
      | nil => exact absurd rfl hk2n
      | cons c cs => exact ⟨c, List.mem_cons_self c cs⟩
    · cases k1 with
      | nil => exact absurd rfl hk1n
      | cons c cs => exact ⟨c, List.mem_cons_self c cs⟩

/-- Witness for C9: two settings differing only in the API key give the
same response. -/
theorem configGET_spec_witness :
    configGET ⟨some (sl "sk-secret-one"), jstr (sl "gpt-5"),
      jstr (sl "English"), jstr (sl "vs1")⟩ =
    configGET ⟨some (sl "sk-other-key"), jstr (sl "gpt-5"),
      jstr (sl "English"), jstr (sl "vs1")⟩ := by
  exact (configGET_spec _ _).2.2 rfl rfl rfl
    ⟨sl "sk-secret-one", rfl, by decide⟩ ⟨sl "sk-other-key", rfl, by decide⟩

-- ---------------------------------------------------------------------------
-- Claims C8 and C10: POST /api/bootstrap-key
-- ---------------------------------------------------------------------------

theorem digitChar10_isDig : ∀ m, m < 10 → isDig (digitChar10 m) = true := by decide

theorem natToStrCore_digits :
    ∀ f n c, c ∈ natToStrCore f n → isDig c = true := by
  intro f
  induction f with
  | zero => intro n c hc; simp [natToStrCore] at hc
  | succ f ih =>
    intro n c hc
    unfold natToStrCore at hc
    by_cases h : n < 10
    · rw [if_pos h] at hc
      simp only [List.mem_singleton] at hc
      subst hc
      exact digitChar10_isDig n h
    · rw [if_neg h] at hc
      rcases List.mem_append.mp hc with h1 | h1
      · exact ih _ _ h1
      · simp only [List.mem_singleton] at h1
        subst h1
        exact digitChar10_isDig _ (Nat.mod_lt _ (by decide))

/-- Decimal index keys never collide with the `ApiKey` property name. -/
theorem natToStr_ne_ApiKey (n : Nat) : natToStr n ≠ sl "ApiKey" := by
  intro h
  have hA : 'A' ∈ natToStr n := by rw [h]; decide
  have := natToStrCore_digits (n + 1) n 'A' hA
  exact absurd this (by decide)

/-- Spreading a non-object never produces an `ApiKey` entry. -/
theorem find?_spread_ApiKey_none (w : JVal) (h : ∀ es, w ≠ jobj es) :
    (spreadEntries w).find? (fun e => e.1 = sl "ApiKey") = none := by
  cases w with
  | jobj es => exact absurd rfl (h es)
  | jarr xs =>
    rw [List.find?_eq_none]
    intro e he
    simp only [spreadEntries, List.mem_map] at he
    obtain ⟨p, _, rfl⟩ := he
    simp [natToStr_ne_ApiKey]
  | jstr cs =>
    rw [List.find?_eq_none]
    intro e he
    simp only [spreadEntries, List.mem_map] at he
    obtain ⟨p, _, rfl⟩ := he
    simp [natToStr_ne_ApiKey]
  | jnull => rfl
  | jbool b => rfl
  | jnum q => rfl

theorem merge_step_top_ne (w : JVal) (k : Str) (x : JVal)
    (hk : ¬(sl "LLMConfig") = k) :
    getM2 (setM w k x) (sl "LLMConfig") (sl "ApiKey") =
      getM2 w (sl "LLMConfig") (sl "ApiKey") := by
  unfold getM2
  rw [getM_setM_ne _ _ _ _ hk]

/-- The LLMConfig rewrite `prev.LLMConfig = \x7b...(prev.LLMConfig||\x7b\x7d),
Model: model\x7d` keeps the `ApiKey` member unchanged. -/
theorem merge_model_ApiKey (prev : JVal) (m : Str) :
    getM2 (setM prev (sl "LLMConfig")
        (jobj (setEntries (spreadEntries (jsOrD (getM prev (sl "LLMConfig")) (jobj [])))
          (sl "Model") (jstr m))))
      (sl "LLMConfig") (sl "ApiKey") =
      getM2 prev (sl "LLMConfig") (sl "ApiKey") := by
  cases prev with
  | jobj es =>
    unfold getM2
    rw [getM_setM_same]
    simp only [Option.bind_eq_bind, Option.some_bind]
    rw [getM_jobj, find?_setEntries_ne _ _ _ _ (by decide)]
    cases hw : getM (jobj es) (sl "LLMConfig") with
    | none => simp [jsOrD, spreadEntries]
    | some w =>
      simp only [Option.some_bind]
      by_cases ht : w.truthy
      · rw [jsOrD, if_pos ht]
        cases w with
        | jobj es2 => rfl
        | jarr xs =>
          rw [find?_spread_ApiKey_none _ (by intro es3 h; exact absurd h (by simp))]
          rfl
        | jstr cs =>
          rw [find?_spread_ApiKey_none _ (by intro es3 h; exact absurd h (by simp))]
          rfl
        | jnull => simp [truthy] at ht
        | jbool b => rw [find?_spread_ApiKey_none _ (by intro es3 h; exact absurd h (by simp))]; cases b <;> rfl
        | jnum q => rw [find?_spread_ApiKey_none _ (by intro es3 h; exact absurd h (by simp))]; rfl
      · rw [jsOrD, if_neg ht]
        cases w with
        | jnull => rfl
        | jbool b => cases b with
          | false => rfl
          | true => simp [truthy] at ht
        | jnum q => rfl
        | jstr cs => rfl
        | jarr xs => simp [truthy] at ht
        | jobj es2 => simp [truthy] at ht
  | jnull => rfl
  | jbool b => rfl
  | jnum q => rfl
  | jstr cs => rfl
  | jarr xs => rfl

/-- The merge performed on an already-configured file never changes the
stored `ApiKey`, whatever the previous config value looks like. -/
theorem mergeConfig_ApiKey (prev : JVal) (m l v : Str) (b : Bool) :
    getM2 (mergeConfig prev m l v b) (sl "LLMConfig") (sl "ApiKey") =
      getM2 prev (sl "LLMConfig") (sl "ApiKey") := by
  unfold mergeConfig
  rw [merge_step_top_ne _ _ _ (by decide)]
  by_cases h3 : (!v.isEmpty) = true
  · rw [if_pos h3, merge_step_top_ne _ _ _ (by decide)]
    by_cases h2 : (!l.isEmpty) = true
    · rw [if_pos h2, merge_step_top_ne _ _ _ (by decide)]
      by_cases h1 : (!m.isEmpty) = true
      · rw [if_pos h1, merge_model_ApiKey]
      · rw [if_neg h1]
    · rw [if_neg h2]
      by_cases h1 : (!m.isEmpty) = true
      · rw [if_pos h1, merge_model_ApiKey]
      · rw [if_neg h1]
  · rw [if_neg h3]
    by_cases h2 : (!l.isEmpty) = true
    · rw [if_pos h2, merge_step_top_ne _ _ _ (by decide)]
      by_cases h1 : (!m.isEmpty) = true
      · rw [if_pos h1, merge_model_ApiKey]
      · rw [if_neg h1]
    · rw [if_neg h2]
      by_cases h1 : (!m.isEmpty) = true
      · rw [if_pos h1, merge_model_ApiKey]
      · rw [if_neg h1]

/-- The freshly written payload stores the supplied (trimmed) key. -/
theorem bootstrapPayload_ApiKey (a m l v : Str) (b : Bool) :
    getM2 (bootstrapPayload a m l v b) (sl "LLMConfig") (sl "ApiKey") =
      some (jstr a) := by
  unfold bootstrapPayload getM2
  rw [getM_jobj]
  simp only [List.cons_append, List.nil_append]
  rw [List.find?_cons_of_pos _
    (by show decide ((sl "LLMConfig") = (sl "LLMConfig")) = true; decide)]
  show getM (jobj ((sl "ApiKey", jstr a) ::
    (if (!List.isEmpty m) = true then [(sl "Model", jstr m)] else []))) (sl "ApiKey") =
    some (jstr a)
  rw [getM_jobj, List.find?_cons_of_pos _
    (by show decide ((sl "ApiKey") = (sl "ApiKey")) = true; decide)]
  rfl

/-- Counterexample for C8 as stated: a whitespace-only `apiKey` is
non-empty, the config file exists and `rotate` is unset, yet the response
is HTTP 400, not `ok:true`/`alreadyConfigured:true`. -/
theorem bootstrapPOST_whitespace_counterexample :
    (sl " ") ≠ [] ∧
    bootstrapPOST (some (sl "\x7b\x7d"))
        ⟨some (sl " "), none, none, none, none, none⟩ =
      (some (sl "\x7b\x7d"), ⟨400, .errB (sl "Missing apiKey")⟩) := by
  exact ⟨by decide, rfl⟩

/-- Counterexample-driven amendment of C8, proved below: requests are
keyed on the TRIMMED `apiKey` (whitespace-only keys are rejected with
HTTP 400), and `last4` consists of the last four characters of the
trimmed key. -/
theorem bootstrapPOST_spec (file : ConfigFile) (body : BootstrapBody) :
    (trimStr (body.apiKey.getD []) = [] →
      bootstrapPOST file body = (file, ⟨400, .errB (sl "Missing apiKey")⟩)) ∧
    (trimStr (body.apiKey.getD []) ≠ [] →
      (∀ c, file = some c → body.rotate.getD false = false →
        (bootstrapPOST file body).2 = ⟨200, .alreadyConfiguredB⟩ ∧
        ((bootstrapPOST file body).1 = file ∨
         (∃ xs, jsonParse c = some (jarr xs) ∧
            (bootstrapPOST file body).1 = some (stringify2 (jarr xs))) ∨
         (∃ prev, jsonParse c = some prev ∧
            (bootstrapPOST file body).1 = some (stringify2 (mergeConfig prev
              (trimStr (body.model.getD [])) (trimStr (body.language.getD []))
              (trimStr (body.vectorStoreId.getD [])) (body.verboseOpenAI.getD false))) ∧
            getM2 (mergeConfig prev
              (trimStr (body.model.getD [])) (trimStr (body.language.getD []))
              (trimStr (body.vectorStoreId.getD [])) (body.verboseOpenAI.getD false))
                (sl "LLMConfig") (sl "ApiKey") =
              getM2 prev (sl "LLMConfig") (sl "ApiKey")))) ∧
      ((file = none ∨ body.rotate.getD false = true) →
        bootstrapPOST file body =
          (some (stringify2 (bootstrapPayload (trimStr (body.apiKey.getD []))
            (trimStr (body.model.getD [])) (trimStr (body.language.getD []))
            (trimStr (body.vectorStoreId.getD [])) (body.verboseOpenAI.getD false))),
           ⟨200, .savedB (takeRight (trimStr (body.apiKey.getD [])) 4)⟩) ∧
        getM2 (bootstrapPayload (trimStr (body.apiKey.getD []))
            (trimStr (body.model.getD [])) (trimStr (body.language.getD []))
            (trimStr (body.vectorStoreId.getD [])) (body.verboseOpenAI.getD false))
          (sl "LLMConfig") (sl "ApiKey") =
          some (jstr (trimStr (body.apiKey.getD []))))) := by
  constructor
  · intro h
    unfold bootstrapPOST
    rw [if_pos (by simpa [List.isEmpty_iff] using h)]
  · intro h
    have hne : (trimStr (body.apiKey.getD [])).isEmpty = false := by
      simpa [List.isEmpty_iff] using h
    constructor
    · intro c hc hrot
      subst hc
      unfold bootstrapPOST
      rw [if_neg (by simp [hne]), hrot]
      dsimp only
      by_cases hcond : (body.verboseOpenAI.getD false ||
          !(trimStr (body.model.getD [])).isEmpty ||
          !(trimStr (body.language.getD [])).isEmpty ||
          !(trimStr (body.vectorStoreId.getD [])).isEmpty) = true
      · rw [if_pos hcond]
        cases hp : jsonParse c with
        | none => exact ⟨rfl, Or.inl rfl⟩
        | some w =>
          cases w with
          | jobj es =>
            refine ⟨rfl, Or.inr (Or.inr ⟨jobj es, rfl, rfl, ?_⟩)⟩
            exact mergeConfig_ApiKey (jobj es) _ _ _ _
          | jarr xs => exact ⟨rfl, Or.inr (Or.inl ⟨xs, rfl, rfl⟩)⟩
          | jnull => exact ⟨rfl, Or.inl rfl⟩
          | jbool b2 => exact ⟨rfl, Or.inl rfl⟩
          | jnum q => exact ⟨rfl, Or.inl rfl⟩
          | jstr s2 => exact ⟨rfl, Or.inl rfl⟩
      · rw [if_neg hcond]
        exact ⟨rfl, Or.inl rfl⟩
    · intro hcase
      refine ⟨?_, bootstrapPayload_ApiKey _ _ _ _ _⟩
      rcases hcase with hnone | hrot
      · subst hnone
        unfold bootstrapPOST
        rw [if_neg (by simp [hne])]
      · unfold bootstrapPOST
        rw [if_neg (by simp [hne]), hrot]
        cases file with
        | none => rfl
        | some c => rfl


/-- The fields the merge branch writes on an existing config object:
`LLMConfig.Model`, `Language`, `VectorStoreId` when the corresponding
trimmed request field is non-empty, and `VerboseOpenAI` always. -/
theorem mergeConfig_fields (es : List (Str × JVal)) (m l v : Str) (b : Bool) :
    (m ≠ [] → getM2 (mergeConfig (jobj es) m l v b) (sl "LLMConfig") (sl "Model") =
      some (jstr m)) ∧
    (l ≠ [] → getM (mergeConfig (jobj es) m l v b) (sl "Language") = some (jstr l)) ∧
    (v ≠ [] → getM (mergeConfig (jobj es) m l v b) (sl "VectorStoreId") =
      some (jstr v)) ∧
    getM (mergeConfig (jobj es) m l v b) (sl "VerboseOpenAI") = some (jbool b) := by
  unfold mergeConfig
  dsimp only
  set p1 := (if (!m.isEmpty) = true then
      setM (jobj es) (sl "LLMConfig")
        (jobj (setEntries (spreadEntries (jsOrD (getM (jobj es) (sl "LLMConfig")) (jobj [])))
          (sl "Model") (jstr m)))
    else jobj es) with hp1
  have hp1obj : ∃ a, p1 = jobj a := by
    rw [hp1]
    split
    · exact ⟨_, rfl⟩
    · exact ⟨_, rfl⟩
  obtain ⟨a1, ha1⟩ := hp1obj
  set p2 := (if (!l.isEmpty) = true then setM p1 (sl "Language") (jstr l) else p1) with hp2
  have hp2obj : ∃ a, p2 = jobj a := by
    rw [hp2]
    split
    · rw [ha1]; exact ⟨_, rfl⟩
    · rw [ha1]; exact ⟨_, rfl⟩
  obtain ⟨a2, ha2⟩ := hp2obj
  set p3 := (if (!v.isEmpty) = true then setM p2 (sl "VectorStoreId") (jstr v) else p2)
    with hp3
  have hp3obj : ∃ a, p3 = jobj a := by
    rw [hp3]
    split
    · rw [ha2]; exact ⟨_, rfl⟩
    · rw [ha2]; exact ⟨_, rfl⟩
  obtain ⟨a3, ha3⟩ := hp3obj
  refine ⟨?_, ?_, ?_, ?_⟩
  · intro hm
    unfold getM2
    rw [getM_setM_ne _ _ _ _ (by decide)]
    rw [hp3]
    have hgetL : getM p2 (sl "LLMConfig") = getM p1 (sl "LLMConfig") := by
      rw [hp2]
      split
      · rw [getM_setM_ne _ _ _ _ (by decide)]
      · rfl
    have hgetL3 : (if (!v.isEmpty) = true then setM p2 (sl "VectorStoreId") (jstr v)
        else p2) = p3 := by rw [hp3]
    rw [hgetL3]
    have hgetLp3 : getM p3 (sl "LLMConfig") = getM p1 (sl "LLMConfig") := by
      rw [hp3]
      split
      · rw [getM_setM_ne _ _ _ _ (by decide)]
        exact hgetL
      · exact hgetL
    rw [hgetLp3, hp1, if_pos (by simpa [List.isEmpty_iff] using hm), getM_setM_same]
    simp only [Option.some_bind]
    rw [getM_jobj, find?_setEntries_same]
  · intro hl
    rw [getM_setM_ne _ _ _ _ (by decide)]
    have h3 : getM p3 (sl "Language") = getM p2 (sl "Language") := by
      rw [hp3]
      split
      · rw [getM_setM_ne _ _ _ _ (by decide)]
      · rfl
    rw [h3, hp2, if_pos (by simpa [List.isEmpty_iff] using hl), ha1, getM_setM_same]
  · intro hv
    rw [getM_setM_ne _ _ _ _ (by decide)]
    rw [hp3, if_pos (by simpa [List.isEmpty_iff] using hv), ha2, getM_setM_same]
  · rw [ha3, getM_setM_same]

/-- C10.  When the config file already exists and `rotate` is false, a
request that also supplies non-empty `model`, `language` or
`vectorStoreId` values (or a `verboseOpenAI` flag) still rewrites those
fields of the stored config object — only the stored `ApiKey` is
guaranteed unchanged — and the response reports `ok:true` with
`alreadyConfigured:true` and `merged:true`. -/
theorem bootstrapPOST_merge_spec (body : BootstrapBody) (c : Str)
    (es : List (Str × JVal))
    (hkey : trimStr (body.apiKey.getD []) ≠ [])
    (hrot : body.rotate.getD false = false)
    (hcond : (body.verboseOpenAI.getD false ||
      !(trimStr (body.model.getD [])).isEmpty ||
      !(trimStr (body.language.getD [])).isEmpty ||
      !(trimStr (body.vectorStoreId.getD [])).isEmpty) = true)
    (hparse : jsonParse c = some (jobj es)) :
    bootstrapPOST (some c) body =
      (some (stringify2 (mergeConfig (jobj es) (trimStr (body.model.getD []))
        (trimStr (body.language.getD [])) (trimStr (body.vectorStoreId.getD []))
        (body.verboseOpenAI.getD false))),
       ⟨200, .alreadyConfiguredB⟩) ∧
    (trimStr (body.model.getD []) ≠ [] →
      getM2 (mergeConfig (jobj es) (trimStr (body.model.getD []))
          (trimStr (body.language.getD [])) (trimStr (body.vectorStoreId.getD []))
          (body.verboseOpenAI.getD false)) (sl "LLMConfig") (sl "Model") =
        some (jstr (trimStr (body.model.getD [])))) ∧
    (trimStr (body.language.getD []) ≠ [] →
      getM (mergeConfig (jobj es) (trimStr (body.model.getD []))
          (trimStr (body.language.getD [])) (trimStr (body.vectorStoreId.getD []))
          (body.verboseOpenAI.getD false)) (sl "Language") =
        some (jstr (trimStr (body.language.getD [])))) ∧
    (trimStr (body.vectorStoreId.getD []) ≠ [] →
      getM (mergeConfig (jobj es) (trimStr (body.model.getD []))
          (trimStr (body.language.getD [])) (trimStr (body.vectorStoreId.getD []))
          (body.verboseOpenAI.getD false)) (sl "VectorStoreId") =
        some (jstr (trimStr (body.vectorStoreId.getD [])))) ∧
    getM (mergeConfig (jobj es) (trimStr (body.model.getD []))
        (trimStr (body.language.getD [])) (trimStr (body.vectorStoreId.getD []))
        (body.verboseOpenAI.getD false)) (sl "VerboseOpenAI") =
      some (jbool (body.verboseOpenAI.getD false)) ∧
    getM2 (mergeConfig (jobj es) (trimStr (body.model.getD []))
        (trimStr (body.language.getD [])) (trimStr (body.vectorStoreId.getD []))
        (body.verboseOpenAI.getD false)) (sl "LLMConfig") (sl "ApiKey") =
      getM2 (jobj es) (sl "LLMConfig") (sl "ApiKey") := by
  obtain ⟨hf1, hf2, hf3, hf4⟩ := mergeConfig_fields es (trimStr (body.model.getD []))
    (trimStr (body.language.getD [])) (trimStr (body.vectorStoreId.getD []))
    (body.verboseOpenAI.getD false)
  refine ⟨?_, hf1, hf2, hf3, hf4, mergeConfig_ApiKey _ _ _ _ _⟩
  unfold bootstrapPOST
  rw [if_neg (by simpa [List.isEmpty_iff] using hkey), hrot]
  dsimp only
  rw [if_pos hcond, hparse]

/-- Witness for C8: whitespace-only key rejected; existing file left with
`alreadyConfigured`; missing file written with `saved` and `last4`. -/
theorem bootstrapPOST_spec_witness :
    bootstrapPOST (some (sl "\x7b\x7d"))
        ⟨some (sl "  "), none, none, none, none, none⟩ =
      (some (sl "\x7b\x7d"), ⟨400, .errB (sl "Missing apiKey")⟩) ∧
    (bootstrapPOST (some (sl "\x7b\x7d"))
        ⟨some (sl "sk-abc"), none, none, none, none, none⟩).2 =
      ⟨200, .alreadyConfiguredB⟩ ∧
    bootstrapPOST none ⟨some (sl "sk-abcd"), none, none, none, none, none⟩ =
      (some (stringify2 (bootstrapPayload (sl "sk-abcd") [] [] [] false)),
       ⟨200, .savedB (sl "abcd")⟩) := by
  refine ⟨?_, ?_, ?_⟩
  · exact (bootstrapPOST_spec (some (sl "\x7b\x7d"))
      ⟨some (sl "  "), none, none, none, none, none⟩).1 (by decide)
  · exact (((bootstrapPOST_spec (some (sl "\x7b\x7d"))
      ⟨some (sl "sk-abc"), none, none, none, none, none⟩).2 (by decide)).1 _ rfl rfl).1
  · have h := (((bootstrapPOST_spec none
      ⟨some (sl "sk-abcd"), none, none, none, none, none⟩).2 (by decide)).2
      (Or.inl rfl)).1
    rw [h]
    rfl

/-- Witness for C10: an existing keyed config merged with a new model. -/
theorem bootstrapPOST_merge_spec_witness :
    (bootstrapPOST (some (sl "\x7b\"LLMConfig\":\x7b\"ApiKey\":\"old\"\x7d\x7d"))
        ⟨some (sl "sk-abc"), some (sl "gpt-5x"), none, none, none, none⟩).2 =
      ⟨200, .alreadyConfiguredB⟩ ∧
    getM2 (mergeConfig (jobj [(sl "LLMConfig", jobj [(sl "ApiKey", jstr (sl "old"))])])
        (sl "gpt-5x") [] [] false) (sl "LLMConfig") (sl "Model") =
      some (jstr (sl "gpt-5x")) ∧
    getM2 (mergeConfig (jobj [(sl "LLMConfig", jobj [(sl "ApiKey", jstr (sl "old"))])])
        (sl "gpt-5x") [] [] false) (sl "LLMConfig") (sl "ApiKey") =
      some (jstr (sl "old")) := by
  have h := bootstrapPOST_merge_spec
    ⟨some (sl "sk-abc"), some (sl "gpt-5x"), none, none, none, none⟩
    (sl "\x7b\"LLMConfig\":\x7b\"ApiKey\":\"old\"\x7d\x7d")
    [(sl "LLMConfig", jobj [(sl "ApiKey", jstr (sl "old"))])]
    (by decide) rfl (by decide) (by rfl)
  refine ⟨?_, ?_, ?_⟩
  · rw [h.1]
  · exact h.2.1 (by decide)
  · exact (h.2.2.2.2.2).trans (by rfl)

-- ---------------------------------------------------------------------------
-- Claim C4: the layered configuration resolver
-- ---------------------------------------------------------------------------

/-- The file fallback of `getDefaultApiKey` reads the same config member
as `readLocalConfig`. -/
theorem getDefaultApiKeyFile_eq (file : ConfigFile) :
    getDefaultApiKey.getDefaultApiKeyFile file =
      (match (readLocalConfig file).apiKey with
       | some (jstr k) => if !(trimStr k).isEmpty then some (trimStr k) else none
       | _ => none) := by
  cases file with
  | none => rfl
  | some raw =>
    cases hp : jsonParse raw with
    | none => simp only [getDefaultApiKey.getDefaultApiKeyFile, readLocalConfig, hp]
    | some json => simp only [getDefaultApiKey.getDefaultApiKeyFile, readLocalConfig, hp]

/-- The first `||` layer: a truthy environment value wins. -/
theorem jsOrD_env_truthy (w : JVal) (d : JVal) (h : w.truthy = true) :
    jsOrD (some w) d = w := by
  rw [jsOrD, if_pos h]

/-- A falsy or absent environment value falls through. -/
theorem jsOrD_env_falsy (o : Option JVal) (d : JVal)
    (h : ∀ w, o = some w → w.truthy = false) : jsOrD o d = d := by
  cases o with
  | none => rfl
  | some w => rw [jsOrD, if_neg (by simp [h w rfl])]

theorem truthy_jstr_of_ne (m : Str) (h : m ≠ []) : (jstr m).truthy = true := by
  simp [truthy, List.isEmpty_iff, h]

theorem falsy_jstr_of_eq (m : Str) (h : m = []) : (jstr m).truthy = false := by
  simp [truthy, List.isEmpty_iff, h]

/-- C4.  `getDefaultSettings` never throws (it is a total function of the
explicit environment and config-file state), and resolves each field in
layered order: `apiKey` is the trimmed `OPENAI_API_KEY` environment
variable when non-empty, else the config file's `LLMConfig.ApiKey` string
(trimmed) when non-empty, else undefined; `model`, `language` and
`vectorStoreId` are each the corresponding environment variable when
truthy (`MODEL`/`LANGUAGE` trimmed, `VECTOR_STORE_ID` raw), else the
config file's value when truthy, else the hardcoded default
(`"gpt-5"`, `"English"`, `"vs_688ced7042548191997d956b277fd0e0"`). -/
theorem getDefaultSettings_spec (env : JsEnv) (file : ConfigFile) :
    (∀ k, env.OPENAI_API_KEY = some k → trimStr k ≠ [] →
      (getDefaultSettings env file).apiKey = some (trimStr k)) ∧
    ((∀ k, env.OPENAI_API_KEY = some k → trimStr k = []) →
      (∀ s', (readLocalConfig file).apiKey = some (jstr s') → trimStr s' ≠ [] →
        (getDefaultSettings env file).apiKey = some (trimStr s')) ∧
      ((∀ s', (readLocalConfig file).apiKey = some (jstr s') → trimStr s' = []) →
        (getDefaultSettings env file).apiKey = none)) ∧
    (∀ m, env.MODEL = some m → trimStr m ≠ [] →
      (getDefaultSettings env file).model = jstr (trimStr m)) ∧
    ((∀ m, env.MODEL = some m → trimStr m = []) →
      (∀ w, (readLocalConfig file).model = some w → w.truthy = true →
        (getDefaultSettings env file).model = w) ∧
      ((∀ w, (readLocalConfig file).model = some w → w.truthy = false) →
        (getDefaultSettings env file).model = jstr (sl "gpt-5"))) ∧
    (∀ m, env.LANGUAGE = some m → trimStr m ≠ [] →
      (getDefaultSettings env file).language = jstr (trimStr m)) ∧
    ((∀ m, env.LANGUAGE = some m → trimStr m = []) →
      (∀ w, (readLocalConfig file).language = some w → w.truthy = true →
        (getDefaultSettings env file).language = w) ∧
      ((∀ w, (readLocalConfig file).language = some w → w.truthy = false) →
        (getDefaultSettings env file).language = jstr (sl "English"))) ∧
    (∀ u, env.VECTOR_STORE_ID = some u → u ≠ [] →
      (getDefaultSettings env file).vectorStoreId = jstr u) ∧
    ((∀ u, env.VECTOR_STORE_ID = some u → u = []) →
      (∀ w, (readLocalConfig file).vectorStoreId = some w → w.truthy = true →
        (getDefaultSettings env file).vectorStoreId = w) ∧
      ((∀ w, (readLocalConfig file).vectorStoreId = some w → w.truthy = false) →
        (getDefaultSettings env file).vectorStoreId =
          jstr (sl "vs_688ced7042548191997d956b277fd0e0"))) := by
  refine ⟨?_, ?_, ?_, ?_, ?_, ?_, ?_, ?_⟩
  · intro k hk htrim
    show getDefaultApiKey env file = some (trimStr k)
    unfold getDefaultApiKey
    rw [hk]
    dsimp only
    rw [if_pos (by simpa [List.isEmpty_iff] using htrim)]
  · intro henv
    have hfall : getDefaultApiKey env file = getDefaultApiKey.getDefaultApiKeyFile file := by
      unfold getDefaultApiKey
      cases he : env.OPENAI_API_KEY with
      | none => rfl
      | some k =>
        dsimp only
        rw [if_neg (by simp [List.isEmpty_iff, henv k he])]
    constructor
    · intro s' hs htrim
      show getDefaultApiKey env file = some (trimStr s')
      rw [hfall, getDefaultApiKeyFile_eq, hs]
      dsimp only
      rw [if_pos (by simpa [List.isEmpty_iff] using htrim)]
    · intro hnone
      show getDefaultApiKey env file = none
      rw [hfall, getDefaultApiKeyFile_eq]
      cases hs : (readLocalConfig file).apiKey with
      | none => rfl
      | some w =>
        cases w with
        | jstr s' =>
          dsimp only
          rw [if_neg (by simp [List.isEmpty_iff, hnone s' hs])]
        | jnull => rfl
        | jbool b => rfl
        | jnum q => rfl
        | jarr xs => rfl
        | jobj es => rfl
  · intro m hm htrim
    show jsOrD (env.MODEL.map (fun s => jstr (trimStr s))) _ = jstr (trimStr m)
    rw [hm]
    exact jsOrD_env_truthy _ _ (truthy_jstr_of_ne _ htrim)
  · intro henv
    have hfall : ∀ d, jsOrD (env.MODEL.map (fun s => jstr (trimStr s))) d = d := by
      intro d
      apply jsOrD_env_falsy
      intro w hw
      cases he : env.MODEL with
      | none => rw [he] at hw; exact absurd hw (by simp)
      | some m =>
        rw [he] at hw
        have hw2 : jstr (trimStr m) = w := by simpa using hw
        rw [← hw2]
        exact falsy_jstr_of_eq _ (henv m he)
    constructor
    · intro w hw htr
      show jsOrD _ (jsOrD (readLocalConfig file).model (jstr (sl "gpt-5"))) = w
      rw [hfall, hw]
      exact jsOrD_env_truthy _ _ htr
    · intro hnone
      show jsOrD _ (jsOrD (readLocalConfig file).model (jstr (sl "gpt-5"))) = _
      rw [hfall, jsOrD_env_falsy _ _ hnone]
  · intro m hm htrim
    show jsOrD (env.LANGUAGE.map (fun s => jstr (trimStr s))) _ = jstr (trimStr m)
    rw [hm]
    exact jsOrD_env_truthy _ _ (truthy_jstr_of_ne _ htrim)
  · intro henv
    have hfall : ∀ d, jsOrD (env.LANGUAGE.map (fun s => jstr (trimStr s))) d = d := by
      intro d
      apply jsOrD_env_falsy
      intro w hw
      cases he : env.LANGUAGE with
      | none => rw [he] at hw; exact absurd hw (by simp)
      | some m =>
        rw [he] at hw
        have hw2 : jstr (trimStr m) = w := by simpa using hw
        rw [← hw2]
        exact falsy_jstr_of_eq _ (henv m he)
    constructor
    · intro w hw htr
      show jsOrD _ (jsOrD (readLocalConfig file).language (jstr (sl "English"))) = w
      rw [hfall, hw]
      exact jsOrD_env_truthy _ _ htr
    · intro hnone
      show jsOrD _ (jsOrD (readLocalConfig file).language (jstr (sl "English"))) = _
      rw [hfall, jsOrD_env_falsy _ _ hnone]
  · intro u hu hne
    show jsOrD (env.VECTOR_STORE_ID.map jstr) _ = jstr u
    rw [hu]
    exact jsOrD_env_truthy _ _ (truthy_jstr_of_ne _ hne)
  · intro henv
    have hfall : ∀ d, jsOrD (env.VECTOR_STORE_ID.map jstr) d = d := by
      intro d
      apply jsOrD_env_falsy
      intro w hw
      cases he : env.VECTOR_STORE_ID with
      | none => rw [he] at hw; exact absurd hw (by simp)
      | some u =>
        rw [he] at hw
        have hw2 : jstr u = w := by simpa using hw
        rw [← hw2]
        exact falsy_jstr_of_eq _ (henv u he)
    constructor
    · intro w hw htr
      show jsOrD _ (jsOrD (readLocalConfig file).vectorStoreId
        (jstr (sl "vs_688ced7042548191997d956b277fd0e0"))) = w
      rw [hfall, hw]
      exact jsOrD_env_truthy _ _ htr
    · intro hnone
      show jsOrD _ (jsOrD (readLocalConfig file).vectorStoreId
        (jstr (sl "vs_688ced7042548191997d956b277fd0e0"))) = _
      rw [hfall, jsOrD_env_falsy _ _ hnone]

/-- Witness for C4: environment key wins (trimmed), file model fills the
gap, file language fills the gap, environment vector-store id wins. -/
theorem getDefaultSettings_spec_witness :
    (getDefaultSettings ⟨some (sl " sk-env "), none, none, some (sl "vs-env")⟩
      (some (sl "\x7b\"LLMConfig\":\x7b\"Model\":\"m-file\"\x7d,\"Language\":\"Magyar\"\x7d"))).apiKey =
      some (sl "sk-env") ∧
    (getDefaultSettings ⟨some (sl " sk-env "), none, none, some (sl "vs-env")⟩
      (some (sl "\x7b\"LLMConfig\":\x7b\"Model\":\"m-file\"\x7d,\"Language\":\"Magyar\"\x7d"))).model =
      jstr (sl "m-file") ∧
    (getDefaultSettings ⟨some (sl " sk-env "), none, none, some (sl "vs-env")⟩
      (some (sl "\x7b\"LLMConfig\":\x7b\"Model\":\"m-file\"\x7d,\"Language\":\"Magyar\"\x7d"))).language =
      jstr (sl "Magyar") ∧
    (getDefaultSettings ⟨some (sl " sk-env "), none, none, some (sl "vs-env")⟩
      (some (sl "\x7b\"LLMConfig\":\x7b\"Model\":\"m-file\"\x7d,\"Language\":\"Magyar\"\x7d"))).vectorStoreId =
      jstr (sl "vs-env") := by
  have h := getDefaultSettings_spec
    ⟨some (sl " sk-env "), none, none, some (sl "vs-env")⟩
    (some (sl "\x7b\"LLMConfig\":\x7b\"Model\":\"m-file\"\x7d,\"Language\":\"Magyar\"\x7d"))
  refine ⟨?_, ?_, ?_, ?_⟩
  · have a := h.1 (sl " sk-env ") rfl (by decide)
    rw [a]
    rfl
  · have a := (h.2.2.2.1 (by intro m hm; exact (nomatch hm))).1
      (jstr (sl "m-file")) (by rfl) (by decide)
    rw [a]
  · have a := (h.2.2.2.2.2.1 (by intro m hm; exact (nomatch hm))).1
      (jstr (sl "Magyar")) (by rfl) (by decide)
    rw [a]
  · have a := h.2.2.2.2.2.2.1 (sl "vs-env") rfl (by decide)
    rw [a]
